import Mathlib

/-!
Verification development for the collaborative-replication core of this
repository: canonical JSON serialization, the replica WebSocket server's
optimistic-concurrency op handling, the conflict inbox store, the
hash-chained audit log verifier, the deterministic replay engine with the
binary-search first-divergence locator, the bounded deep-diff report, and
the schema-upgrade vote arbitration.

Conventions of the embedding:
* JSON trees are the inductive `Json` below; JavaScript numbers are modelled
  as integers (every value exercised by the code paths under study is an
  integer; float formatting is out of scope).
* `sha256Hex` is modelled as an explicit function parameter `H : String → String`;
  theorems that need collision-freeness take injectivity of `H` as a
  hypothesis, and witnesses instantiate `H` with a concrete injective map.
* `undefined` is modelled as `Option.none` where the source distinguishes a
  missing field, and `?? x` as `Option.getD`.
-/

set_option linter.unusedVariables false

/-- JSON-like document trees (the `Json`/`any` payloads of the source).
Object members keep insertion order, as JavaScript objects do. -/
inductive Json where
  | null : Json
  | bool (b : Bool) : Json
  | num (n : Int) : Json
  | str (s : String) : Json
  | arr (elems : List Json) : Json
  | obj (members : List (String × Json)) : Json
  deriving Repr

mutual
/-- Decidable equality for `Json`, written as a direct mutual definition so
that it evaluates by kernel reduction. -/
def Json.decEq : (a b : Json) → Decidable (a = b)
  | .null, .bool _ => isFalse (fun h => Json.noConfusion h)
  | .null, .num _ => isFalse (fun h => Json.noConfusion h)
  | .null, .str _ => isFalse (fun h => Json.noConfusion h)
  | .null, .arr _ => isFalse (fun h => Json.noConfusion h)
  | .null, .obj _ => isFalse (fun h => Json.noConfusion h)
  | .bool _, .null => isFalse (fun h => Json.noConfusion h)
  | .bool _, .num _ => isFalse (fun h => Json.noConfusion h)
  | .bool _, .str _ => isFalse (fun h => Json.noConfusion h)
  | .bool _, .arr _ => isFalse (fun h => Json.noConfusion h)
  | .bool _, .obj _ => isFalse (fun h => Json.noConfusion h)
  | .num _, .null => isFalse (fun h => Json.noConfusion h)
  | .num _, .bool _ => isFalse (fun h => Json.noConfusion h)
  | .num _, .str _ => isFalse (fun h => Json.noConfusion h)
  | .num _, .arr _ => isFalse (fun h => Json.noConfusion h)
  | .num _, .obj _ => isFalse (fun h => Json.noConfusion h)
  | .str _, .null => isFalse (fun h => Json.noConfusion h)
  | .str _, .bool _ => isFalse (fun h => Json.noConfusion h)
  | .str _, .num _ => isFalse (fun h => Json.noConfusion h)
  | .str _, .arr _ => isFalse (fun h => Json.noConfusion h)
  | .str _, .obj _ => isFalse (fun h => Json.noConfusion h)
  | .arr _, .null => isFalse (fun h => Json.noConfusion h)
  | .arr _, .bool _ => isFalse (fun h => Json.noConfusion h)
  | .arr _, .num _ => isFalse (fun h => Json.noConfusion h)
  | .arr _, .str _ => isFalse (fun h => Json.noConfusion h)
  | .arr _, .obj _ => isFalse (fun h => Json.noConfusion h)
  | .obj _, .null => isFalse (fun h => Json.noConfusion h)
  | .obj _, .bool _ => isFalse (fun h => Json.noConfusion h)
  | .obj _, .num _ => isFalse (fun h => Json.noConfusion h)
  | .obj _, .str _ => isFalse (fun h => Json.noConfusion h)
  | .obj _, .arr _ => isFalse (fun h => Json.noConfusion h)
  | .null, .null => isTrue rfl
  | .bool a, .bool b =>
    if h : a = b then isTrue (by rw [h]) else isFalse (fun he => h (Json.bool.inj he))
  | .num a, .num b =>
    if h : a = b then isTrue (by rw [h]) else isFalse (fun he => h (Json.num.inj he))
  | .str a, .str b =>
    if h : a = b then isTrue (by rw [h]) else isFalse (fun he => h (Json.str.inj he))
  | .arr a, .arr b =>
    match Json.decEqItems a b with
    | isTrue h => isTrue (by rw [h])
    | isFalse h => isFalse (fun he => h (Json.arr.inj he))
  | .obj a, .obj b =>
    match Json.decEqMembers a b with
    | isTrue h => isTrue (by rw [h])
    | isFalse h => isFalse (fun he => h (Json.obj.inj he))

def Json.decEqItems : (a b : List Json) → Decidable (a = b)
  | [], [] => isTrue rfl
  | [], _ :: _ => isFalse (fun h => List.noConfusion h)
  | _ :: _, [] => isFalse (fun h => List.noConfusion h)
  | x :: xs, y :: ys =>
    match Json.decEq x y, Json.decEqItems xs ys with
    | isTrue h1, isTrue h2 => isTrue (by rw [h1, h2])
    | isFalse h1, _ => isFalse (fun he => h1 (List.cons.inj he).1)
    | _, isFalse h2 => isFalse (fun he => h2 (List.cons.inj he).2)

def Json.decEqMembers : (a b : List (String × Json)) → Decidable (a = b)
  | [], [] => isTrue rfl
  | [], _ :: _ => isFalse (fun h => List.noConfusion h)
  | (k, v) :: xs, [] => isFalse (fun h => List.noConfusion h)
  | (k, v) :: xs, (k2, v2) :: ys =>
    if hk : k = k2 then
      match Json.decEq v v2, Json.decEqMembers xs ys with
      | isTrue h1, isTrue h2 => isTrue (by rw [hk, h1, h2])
      | isFalse h1, _ =>
        isFalse (fun he => h1 (congrArg Prod.snd (List.cons.inj he).1))
      | _, isFalse h2 => isFalse (fun he => h2 (List.cons.inj he).2)
    else isFalse (fun he => hk (congrArg Prod.fst (List.cons.inj he).1))
end

instance : DecidableEq Json := Json.decEq

/-- Decimal digit characters. -/
def digitChar : Nat → Char
  | 0 => '0' | 1 => '1' | 2 => '2' | 3 => '3' | 4 => '4'
  | 5 => '5' | 6 => '6' | 7 => '7' | 8 => '8' | _ => '9'

/-- Helper for decimal printing: emits the digits of `n`, most significant
first, with enough fuel (`n ≤ fuel`); emits nothing for `n = 0`. -/
def natDecAux : Nat → Nat → List Char
  | 0, _ => []
  | fuel + 1, n => if n = 0 then [] else natDecAux fuel (n / 10) ++ [digitChar (n % 10)]

/-- Decimal representation of a natural number, as produced by JavaScript
number-to-string conversion for integers. -/
def natDecimal (n : Nat) : List Char :=
  if n = 0 then ['0'] else natDecAux n n

/-- Decimal representation of an integer. -/
def intDecimal (i : Int) : List Char :=
  if i < 0 then '-' :: natDecimal i.natAbs else natDecimal i.toNat

/-- JSON string escaping for one character (quote and backslash; control
characters do not occur in the values under study). -/
def escChar (c : Char) : List Char :=
  if c = '"' then ['\\', '"'] else if c = '\\' then ['\\', '\\'] else [c]

/-- JSON string escaping. -/
def escapeChars (s : List Char) : List Char := (s.map escChar).flatten

mutual
/-- `JSON.stringify` of the source, on `Json` trees: object members are
emitted in stored (insertion) order. -/
def stringifyJ : Json → List Char
  | .num i => intDecimal i
  | .str s => '"' :: (escapeChars s.data ++ ['"'])
  | .bool false => ['f', 'a', 'l', 's', 'e']
  | .bool true => ['t', 'r', 'u', 'e']
  | .null => ['n', 'u', 'l', 'l']
  | .arr xs => '[' :: (stringifyItems xs ++ [']'])
  | .obj kvs => '\x7b' :: (stringifyMembers kvs ++ ['\x7d'])

/-- Comma-separated serialization of array items. -/
def stringifyItems : List Json → List Char
  | [] => []
  | [x] => stringifyJ x
  | x :: y :: xs => stringifyJ x ++ ',' :: stringifyItems (y :: xs)

/-- Comma-separated serialization of object members. -/
def stringifyMembers : List (String × Json) → List Char
  | [] => []
  | [(k, v)] => '"' :: (escapeChars k.data ++ '"' :: ':' :: stringifyJ v)
  | (k, v) :: m :: kvs =>
      ('"' :: (escapeChars k.data ++ '"' :: ':' :: stringifyJ v)) ++ ',' :: stringifyMembers (m :: kvs)
end

/-- String form of `JSON.stringify`. -/
def Json.stringify (j : Json) : String := ⟨stringifyJ j⟩

mutual
/-- Size measure of a JSON tree, used as parser fuel. -/
def sizeJ : Json → Nat
  | .arr xs => sizeItems xs + 1
  | .obj kvs => sizeMembers kvs + 1
  | _ => 1

/-- Size measure of a list of JSON trees. -/
def sizeItems : List Json → Nat
  | [] => 0
  | x :: xs => sizeJ x + sizeItems xs + 1

/-- Size measure of a list of JSON object members. -/
def sizeMembers : List (String × Json) → Nat
  | [] => 0
  | (_, v) :: kvs => sizeJ v + sizeMembers kvs + 1
end

/-- Decimal digit test. -/
def isDigitC (c : Char) : Bool := '0' ≤ c && c ≤ '9'

/-- Numeric value of a decimal digit character. -/
def digitVal (c : Char) : Nat := c.toNat - 48

/-- Value of a most-significant-first digit string. -/
def digitsToNat (ds : List Char) : Nat := ds.foldl (fun a c => a * 10 + digitVal c) 0

/-- Reads a leading run of decimal digits; fails on an empty run.
Used only to prove the serializer injective. -/
def readNatNum (cs : List Char) : Option (Nat × List Char) :=
  let ds := cs.takeWhile isDigitC
  if ds.isEmpty then none else some (digitsToNat ds, cs.dropWhile isDigitC)

/-- Reads a JSON integer (optional minus sign and digit run). -/
def readNum (cs : List Char) : Option (Json × List Char) :=
  match cs with
  | '-' :: rest => (readNatNum rest).map (fun p => (.num (-(p.1 : Int)), p.2))
  | _ => (readNatNum cs).map (fun p => (.num (p.1 : Int), p.2))

/-- Reads the body of a JSON string up to its closing quote, undoing
`escapeChars`. -/
def readStr : List Char → Option (List Char × List Char)
  | [] => none
  | '\\' :: [] => none
  | '\\' :: e :: rest2 => (readStr rest2).map (fun p => (e :: p.1, p.2))
  | '"' :: rest => some ([], rest)
  | c :: rest => (readStr rest).map (fun p => (c :: p.1, p.2))

mutual
/-- Fuelled reader for serialized JSON values, the left inverse of
`stringifyJ`; it exists only to prove the serializer injective. -/
def readJson : Nat → List Char → Option (Json × List Char)
  | 0, _ => none
  | fuel + 1, cs =>
    match cs with
    | [] => none
    | c :: rest =>
      if c = 'n' then
        match rest with
        | 'u' :: 'l' :: 'l' :: r => some (.null, r)
        | _ => none
      else if c = 't' then
        match rest with
        | 'r' :: 'u' :: 'e' :: r => some (.bool true, r)
        | _ => none
      else if c = 'f' then
        match rest with
        | 'a' :: 'l' :: 's' :: 'e' :: r => some (.bool false, r)
        | _ => none
      else if c = '"' then (readStr rest).map (fun p => (.str ⟨p.1⟩, p.2))
      else if c = '[' then
        match rest with
        | ']' :: r => some (.arr [], r)
        | _ => readItems fuel rest []
      else if c = '\x7b' then
        match rest with
        | '\x7d' :: r => some (.obj [], r)
        | _ => readMembersR fuel rest []
      else readNum cs

/-- Reads the remaining comma-separated items of a nonempty JSON array. -/
def readItems : Nat → List Char → List Json → Option (Json × List Char)
  | 0, _, _ => none
  | fuel + 1, cs, acc =>
    match readJson fuel cs with
    | some (j, ',' :: rest) => readItems fuel rest (acc ++ [j])
    | some (j, ']' :: rest) => some (.arr (acc ++ [j]), rest)
    | _ => none

/-- Reads the remaining comma-separated members of a nonempty JSON object. -/
def readMembersR : Nat → List Char → List (String × Json) → Option (Json × List Char)
  | 0, _, _ => none
  | fuel + 1, cs, acc =>
    match cs with
    | '"' :: cs1 =>
      match readStr cs1 with
      | some (k, ':' :: rest) =>
        match readJson fuel rest with
        | some (v, ',' :: rest2) => readMembersR fuel rest2 (acc ++ [(⟨k⟩, v)])
        | some (v, '\x7d' :: rest2) => some (.obj (acc ++ [(⟨k⟩, v)]), rest2)
        | _ => none
      | _ => none
    | _ => none
end

/-- A continuation after a serialized value must not start with a digit, so
that number parsing stops at the right place. -/
def delimOkB : List Char → Bool
  | [] => true
  | c :: _ => !isDigitC c

/-- Looks up key `k` among object members (first match wins, as in
JavaScript property access). -/
def lookupKey (k : String) : List (String × Json) → Option Json
  | [] => none
  | (k2, v) :: rest => if k2 = k then some v else lookupKey k rest

/-- JavaScript property assignment on an object: overwrite in place
(preserving member order) or append a new member at the end. -/
def setKeyMembers (k : String) (v : Json) : List (String × Json) → List (String × Json)
  | [] => [(k, v)]
  | (k2, v2) :: rest => if k2 = k then (k2, v) :: rest else (k2, v2) :: setKeyMembers k v rest

/-- JavaScript truthiness on JSON values. -/
def jsTruthy : Json → Bool
  | .null => false
  | .bool b => b
  | .num n => n != 0
  | .str s => s != ""
  | .arr _ => true
  | .obj _ => true

/-- The type tag computed by `deepDiff` (`Array.isArray(x) ? "array" : typeof x`). -/
def typeTag : Json → String
  | .null => "object"
  | .bool _ => "boolean"
  | .num _ => "number"
  | .str _ => "string"
  | .arr _ => "array"
  | .obj _ => "object"

/-- JavaScript `typeof` proper (arrays and null are "object"). -/
def typeofJs : Json → String
  | .null => "object"
  | .bool _ => "boolean"
  | .num _ => "number"
  | .str _ => "string"
  | .arr _ => "object"
  | .obj _ => "object"

/-- Reads a property of a JSON value with optional chaining semantics
(`x?.k`): `none` when the value is not an object or lacks the key. -/
def getField (j : Json) (k : String) : Option Json :=
  match j with
  | .obj m => lookupKey k m
  | _ => none

mutual
/-- JavaScript string coercion `String(x)` for the values that can appear in
audit payload `path` fields. -/
def jsToString : Json → String
  | .str s => s
  | .num n => ⟨intDecimal n⟩
  | .bool true => "true"
  | .bool false => "false"
  | .null => "null"
  | .obj _ => "[object Object]"
  | .arr xs => jsToStringItems xs

/-- `Array.prototype.toString`: elements joined by commas, null elements
joining as the empty string. -/
def jsToStringItems : List Json → String
  | [] => ""
  | [.null] => ""
  | [x] => jsToString x
  | .null :: y :: xs => "," ++ jsToStringItems (y :: xs)
  | x :: y :: xs => jsToString x ++ "," ++ jsToStringItems (y :: xs)
end

/-- `String.split("."):` cut at every dot, keeping empty pieces. -/
def splitDotChars : List Char → List Char → List String
  | [], acc => [⟨acc.reverse⟩]
  | c :: cs, acc =>
      if c = '.' then (⟨acc.reverse⟩ : String) :: splitDotChars cs []
      else splitDotChars cs (c :: acc)

/-- `path.split(".").filter(Boolean)` of the source. -/
def splitPath (path : String) : List String :=
  ((splitDotChars path.data []).filter (fun s => s != ""))

/-- Recursive descent of `setByPath`: if the value at an intermediate key is
absent, falsy or not an object it is replaced by a fresh empty object before
descending. JavaScript would also descend into an array here (and would
write the key "undefined" when the split path is empty); the logs and
patches under study never do either, and the model replaces an array like
any other non-plain-object and writes the key "undefined" respectively. -/
def setParts : List String → Json → Json → Json
  | [], cur, v =>
      match cur with
      | .obj m => .obj (setKeyMembers "undefined" v m)
      | other => other
  | [k], cur, v =>
      match cur with
      | .obj m => .obj (setKeyMembers k v m)
      | other => other
  | k :: k2 :: rest, cur, v =>
      match cur with
      | .obj m =>
        let child := match lookupKey k m with
          | some (Json.obj cm) => Json.obj cm
          | _ => Json.obj []
        .obj (setKeyMembers k (setParts (k2 :: rest) child v) m)
      | other => other

/-- `setByPath` shared by the v1/v2 collab servers and the replay state
store: create missing intermediate objects, then assign the final key.
Assigning into a non-object root is a no-op (the strict-mode source would
throw; no code path reaches it with the inputs under study). -/
def setByPath (obj : Json) (path : String) (value : Json) : Json :=
  setParts (splitPath path) obj value

/-- Code-point lexicographic order on character lists (JS `<` on the ASCII
keys occurring in this development). -/
def strLtChars : List Char → List Char → Bool
  | [], [] => false
  | [], _ :: _ => true
  | _ :: _, [] => false
  | c :: cs, d :: ds =>
      if c.toNat < d.toNat then true
      else if d.toNat < c.toNat then false
      else strLtChars cs ds

/-- String comparison used by the key sorts. -/
def strLt (a b : String) : Bool := strLtChars a.data b.data

/-- Insertion step for sorting object members by key (stable). -/
def insertByKey (p : String × Json) : List (String × Json) → List (String × Json)
  | [] => [p]
  | q :: rest => if strLt p.1 q.1 then p :: q :: rest else q :: insertByKey p rest

/-- `Object.keys(obj).sort()` rebuilt as member sorting. -/
def sortByKey : List (String × Json) → List (String × Json)
  | [] => []
  | p :: rest => insertByKey p (sortByKey rest)

mutual
/-- `sortRec` of the source: recursively order object keys so that two
structurally equal states serialize identically. The source sorts the keys
before recursing into the values; since the sort depends only on the keys,
recursing first (as required for structural recursion) gives the same
result. -/
def sortRec : Json → Json
  | .null => .null
  | .bool b => .bool b
  | .num n => .num n
  | .str s => .str s
  | .arr xs => .arr (sortRecItems xs)
  | .obj kvs => .obj (sortByKey (sortRecMembers kvs))

/-- Recursion of `sortRec` into array elements. -/
def sortRecItems : List Json → List Json
  | [] => []
  | x :: xs => sortRec x :: sortRecItems xs

/-- Recursion of `sortRec` into object member values. -/
def sortRecMembers : List (String × Json) → List (String × Json)
  | [] => []
  | (k, v) :: kvs => (k, sortRec v) :: sortRecMembers kvs
end

/-- `stableStringify` of the source: `JSON.stringify(sortRec(x))`. -/
def stableStringify (x : Json) : String := Json.stringify (sortRec x)

/-- `canonicalizeInner` of the canonical-serialization module, fuelled by
remaining depth (the source checks `depth > maxDepth`). Numbers are already
integers in the model, so the -0/NaN normalizations are identities; Date and
typed-array host objects cannot occur in `Json`. -/
def canonicalizeInner : Nat → Json → Json
  | 0, _ => .str "[MAX_DEPTH]"
  | _ + 1, .null => .null
  | _ + 1, .bool b => .bool b
  | _ + 1, .num n => .num n
  | _ + 1, .str s => .str s
  | fuel + 1, .arr xs => .arr (xs.map (canonicalizeInner fuel))
  | fuel + 1, .obj kvs =>
      .obj ((sortByKey kvs).map (fun kv => (kv.1, canonicalizeInner fuel kv.2)))

/-- `canonicalize` with the default depth cap of 64. -/
def canonicalize (value : Json) : Json := canonicalizeInner 65 value

/-- Deterministic JSON stringify with stable key ordering — the shared leaf
dependency of conflict ids, proposal ids and reference hashes. -/
def canonicalJSONStringify (value : Json) : String := Json.stringify (canonicalize value)


/-- One `PathSet` op entry of the v2 protocol (the optional `ts`/`clientId`
metadata the server attaches to received ops does not feed into the state). -/
structure PathSetOp where
  path : String
  value : Json
  deriving Repr, DecidableEq

/-- The patch union of `protocol_v2`: full replace, shallow root merge, or a
list of last-write-wins path sets with an optional concurrency policy. -/
inductive Patch where
  | set (value : Json)
  | merge (value : Json)
  | pathset (ops : List PathSetOp) (policy : Option String)
  deriving Repr, DecidableEq

/-- Server-side state of one document. -/
structure DocState where
  docId : String
  version : Nat
  state : Json
  deriving Repr, DecidableEq

/-- Messages the v2 collab server sends on the op-handling path. -/
inductive SrvMsg where
  | snapshot (docId : String) (version : Nat) (state : Json)
  | ack (docId : String) (opId : String) (newVersion : Nat)
  | conflict (docId : String) (opId : String) (applied : Bool) (reason : String)
      (serverVersion : Nat)
  | op (docId : String) (baseVersion : Nat) (opId : String) (patch : Patch)
  | error (code : String) (message : String)
  deriving Repr, DecidableEq

/-- An op envelope as received by the server. `baseVersion` is a natural
number: the server has already rejected non-integer or negative values with
`BAD_VERSION`, and a missing `kind` with `BAD_PATCH`. -/
structure OpMsg where
  opId : String
  baseVersion : Nat
  patch : Patch
  deriving Repr, DecidableEq

/-- A connected client's context (identity modelled by `clientId`). -/
structure ClientCtx where
  clientId : String
  docId : Option String
  deriving Repr, DecidableEq

/-- JavaScript object spread: members of `incoming` override `base`,
preserving the base member order and appending new keys. -/
def jsMergeMembers (base incoming : List (String × Json)) : List (String × Json) :=
  incoming.foldl (fun acc kv => setKeyMembers kv.1 kv.2 acc) base

/-- `applyPatch` of the v2 collab server: `set` replaces the whole state,
`merge` shallow-merges an object at the root (null, non-object and array
merge values leave the state unchanged), `pathset` applies its ops in
arrival order, last write wins per path, skipping ops with an empty path.
Spreading a non-object state contributes no members (string index spreading
and array index spreading do not arise for the states under study). -/
def applyPatch (state : Json) (patch : Patch) : Json :=
  match patch with
  | .set v => v
  | .merge v =>
    match v with
    | .obj m =>
      let baseM := match state with
        | .obj sm => sm
        | _ => []
      .obj (jsMergeMembers baseM m)
    | _ => state
  | .pathset ops _ =>
    let base := match state with
      | .null => Json.obj []
      | s => s
    ops.foldl (fun cur op => if op.path = "" then cur else setByPath cur op.path op.value) base

/-- The v2 server's policy gate: a patch may apply under last-write-wins iff
it is a `pathset` whose policy, defaulting to "lww_pathset", is
"lww_pathset". -/
def canLww : Patch → Bool
  | .pathset _ policy => policy.getD "lww_pathset" == "lww_pathset"
  | _ => false

/-- Result of handling one op message: the updated document, the replies to
the sender in send order, and the broadcast fan-out as (clientId, message)
pairs in client-set iteration order. -/
structure OpResult where
  doc : DocState
  toSender : List SrvMsg
  toOthers : List (String × SrvMsg)
  deriving Repr, DecidableEq

/-- The `op` branch of `CollabWSServerV2.onMessage` for a sender already in
a session on `doc`. -/
def handleOp (doc : DocState) (senderId : String) (clients : List ClientCtx)
    (m : OpMsg) : OpResult :=
  if m.opId = "" then
    ⟨doc, [.error "NO_OPID" "opId required."], []⟩
  else if canLww m.patch = false ∧ m.baseVersion ≠ doc.version then
    ⟨doc,
      [.conflict doc.docId m.opId false "VERSION_MISMATCH" doc.version,
       .snapshot doc.docId doc.version doc.state], []⟩
  else
    let next := applyPatch doc.state m.patch
    let newDoc : DocState := ⟨doc.docId, doc.version + 1, next⟩
    let lwwNotice :=
      if canLww m.patch = true ∧ m.baseVersion ≠ newDoc.version - 1 then
        [SrvMsg.conflict doc.docId m.opId true "LWW_PATHSET_APPLIED" newDoc.version]
      else []
    let bmsg := SrvMsg.op doc.docId (newDoc.version - 1) m.opId m.patch
    ⟨newDoc,
      [SrvMsg.ack doc.docId m.opId newDoc.version] ++ lwwNotice,
      (clients.filter (fun c => c.clientId != senderId && c.docId == some doc.docId)).map
        (fun c => (c.clientId, bmsg))⟩

/-- A document as `getOrCreateDoc` creates it: version 0, empty object state. -/
def freshDoc (docId : String) : DocState := ⟨docId, 0, .obj []⟩

/-- Replays a patch sequence through the server with consecutive base
versions 0, 1, 2, ... (each op's `baseVersion` is the current version). -/
def replaySeq (docId : String) (patches : List Patch) : DocState :=
  patches.foldl (fun d p => (handleOp d "sender" [] ⟨"op", d.version, p⟩).doc)
    (freshDoc docId)


/-- Conflict severities. -/
inductive ConflictSeverity where
  | info
  | warn
  | critical
  deriving Repr, DecidableEq

/-- Conflict kinds. -/
inductive ConflictKind where
  | hash_mismatch
  | op_apply_failed
  | snapshot_apply_failed
  | schema_mismatch
  | policy_violation
  | transport_error
  | unknown
  deriving Repr, DecidableEq

/-- Conflict record statuses ("open" is `opened` here: `open` is a Lean
keyword). -/
inductive ConflictStatus where
  | opened
  | acked
  | resolved
  | ignored
  deriving Repr, DecidableEq

/-- The stable correlation fields of a conflict record. -/
structure ConflictRelated where
  opHash : Option String
  stateHash : Option String
  auditId : Option String
  messageId : Option String
  deriving Repr, DecidableEq

/-- JavaScript object spread of two `related` objects: fields present on the
newer occurrence override, the rest carry over. -/
def mergeRelated (e i : Option ConflictRelated) : ConflictRelated :=
  let eb := e.getD ⟨none, none, none, none⟩
  let ib := i.getD ⟨none, none, none, none⟩
  ⟨ib.opHash <|> eb.opHash, ib.stateHash <|> eb.stateHash,
   ib.auditId <|> eb.auditId, ib.messageId <|> eb.messageId⟩

/-- Severity names as serialized in conflict ids. -/
def severityName : ConflictSeverity → String
  | .info => "info"
  | .warn => "warn"
  | .critical => "critical"

/-- Kind names as serialized in conflict ids. -/
def kindName : ConflictKind → String
  | .hash_mismatch => "hash_mismatch"
  | .op_apply_failed => "op_apply_failed"
  | .snapshot_apply_failed => "snapshot_apply_failed"
  | .schema_mismatch => "schema_mismatch"
  | .policy_violation => "policy_violation"
  | .transport_error => "transport_error"
  | .unknown => "unknown"

/-- JSON encoding of an optional string (`x ?? null`). -/
def optStrJson : Option String → Json
  | some s => .str s
  | none => .null

/-- JSON encoding of an optional integer (`x ?? null`). -/
def optIntJson : Option Int → Json
  | some n => .num n
  | none => .null

/-- The `related` object with only its present fields, in interface order
(the conflict id canonicalizes, so member order cannot matter there). -/
def relatedJson (r : ConflictRelated) : Json :=
  .obj ((r.opHash.map (fun h => ("opHash", Json.str h))).toList
    ++ (r.stateHash.map (fun h => ("stateHash", Json.str h))).toList
    ++ (r.auditId.map (fun h => ("auditId", Json.str h))).toList
    ++ (r.messageId.map (fun h => ("messageId", Json.str h))).toList)

/-- Character-level prefix of a string (`.slice(0, n)` on hex output). -/
def strTake (s : String) (n : Nat) : String := ⟨s.data.take n⟩

/-- `makeConflictId`: deterministic content hash over the stable fields,
timestamps excluded; `c_` plus the first 24 hex characters. -/
def makeConflictId (H : String → String) (localClientTag : String) (kind : ConflictKind)
    (severity : ConflictSeverity) (sourcePeer : Option String)
    (related : Option ConflictRelated) (payload : Option Json) : String :=
  let canon := canonicalJSONStringify (.obj
    [("localClientTag", .str localClientTag),
     ("kind", .str (kindName kind)),
     ("severity", .str (severityName severity)),
     ("sourcePeer", optStrJson sourcePeer),
     ("related", match related with | some r => relatedJson r | none => .null),
     ("payload", payload.getD .null)])
  "c_" ++ strTake (H canon) 24

/-- One conflict inbox record. -/
structure ConflictItem where
  v : Nat
  id : String
  createdAtMs : Nat
  updatedAtMs : Nat
  localClientTag : String
  severity : ConflictSeverity
  kind : ConflictKind
  status : ConflictStatus
  sourcePeer : Option String
  title : String
  detail : Option String
  payload : Option Json
  related : Option ConflictRelated
  recommendedAction : String
  deriving Repr, DecidableEq

/-- Auto-ack policy: newly created records matching it start `acked`. -/
structure AutoAckPolicy where
  enabled : Bool
  severities : List ConflictSeverity
  kinds : List ConflictKind
  deriving Repr, DecidableEq

/-- TTL purge policy for terminal-status records. -/
structure PurgePolicy where
  enabled : Bool
  resolvedTTLms : Nat
  ignoredTTLms : Nat
  deriving Repr, DecidableEq

/-- Conflict store policy. -/
structure ConflictPolicy where
  v : Nat
  maxItems : Nat
  autoAck : AutoAckPolicy
  purge : PurgePolicy
  deriving Repr, DecidableEq

/-- The constructor defaults of the source. -/
def defaultConflictPolicy : ConflictPolicy :=
  ⟨1, 2000, ⟨true, [.info], [.transport_error]⟩, ⟨true, 3600000, 900000⟩⟩

/-- The conflict store state: an id-keyed map plus insertion order
(newest last). -/
structure ConflictStore where
  localClientTag : String
  policy : ConflictPolicy
  items : List (String × ConflictItem)
  order : List String
  deriving Repr, DecidableEq

/-- A fresh store. -/
def ConflictStore.init (tag : String) (policy : ConflictPolicy) : ConflictStore :=
  ⟨tag, policy, [], []⟩

/-- Map lookup (`this.items.get(id)`). -/
def lookupItem (items : List (String × ConflictItem)) (id : String) : Option ConflictItem :=
  (items.find? (fun p => p.1 == id)).map (fun p => p.2)

/-- Map write (`this.items.set(id, it)`): replace in place or append. -/
def setItem (id : String) (it : ConflictItem) : List (String × ConflictItem) →
    List (String × ConflictItem)
  | [] => [(id, it)]
  | (id2, it2) :: rest =>
    if id2 = id then (id2, it) :: rest else (id2, it2) :: setItem id it rest

/-- The inputs of `ConflictStore.add`. -/
structure ConflictAddInput where
  severity : ConflictSeverity
  kind : ConflictKind
  title : String
  detail : Option String
  sourcePeer : Option String
  payload : Option Json
  related : Option ConflictRelated
  recommendedAction : Option String
  deriving Repr, DecidableEq

/-- Severity ranking. -/
def severityRank : ConflictSeverity → Nat
  | .critical => 2
  | .warn => 1
  | .info => 0

/-- `escalateSeverity`: the higher-ranked of old and new (ties keep old). -/
def escalateSeverity (a b : ConflictSeverity) : ConflictSeverity :=
  if severityRank a < severityRank b then b else a

/-- The purge-then-trim `cleanup` pass run after every write: drop resolved
and ignored records past their TTLs, then drop the oldest records beyond
`maxItems`. -/
def ConflictStore.cleanup (s : ConflictStore) (t : Nat) : ConflictStore :=
  let s1 :=
    if s.policy.purge.enabled then
      let shouldRemove := s.order.filter (fun id =>
        match lookupItem s.items id with
        | none => false
        | some it =>
          (it.status == .resolved && decide (s.policy.purge.resolvedTTLms < t - it.updatedAtMs))
          || (it.status == .ignored && decide (s.policy.purge.ignoredTTLms < t - it.updatedAtMs)))
      if shouldRemove.isEmpty then s
      else
        let items2 := s.items.filter (fun p => !(shouldRemove.contains p.1))
        let order2 := s.order.filter (fun id => (items2.find? (fun p => p.1 == id)).isSome)
        { s with items := items2, order := order2 }
    else s
  if s1.order.length > s1.policy.maxItems then
    let excess := s1.order.length - s1.policy.maxItems
    let dropIds := s1.order.take excess
    { s1 with
      items := s1.items.filter (fun p => !(dropIds.contains p.1)),
      order := s1.order.drop excess }
  else s1

/-- `ConflictStore.add` at wall-clock time `t`: dedup by the deterministic
content id; an existing record is merged (severity escalated, status kept),
a fresh record is created (auto-acked when the policy matches); cleanup runs
after the write. -/
def ConflictStore.add (H : String → String) (s : ConflictStore)
    (input : ConflictAddInput) (t : Nat) : ConflictStore × ConflictItem :=
  let id := makeConflictId H s.localClientTag input.kind input.severity
    input.sourcePeer input.related input.payload
  match lookupItem s.items id with
  | some existing =>
    let next : ConflictItem :=
      { existing with
        updatedAtMs := t,
        title := input.title,
        detail := input.detail <|> existing.detail,
        payload := input.payload <|> existing.payload,
        related := some (mergeRelated existing.related input.related),
        recommendedAction := input.recommendedAction.getD existing.recommendedAction,
        severity := escalateSeverity existing.severity input.severity }
    (({ s with items := setItem id next s.items } : ConflictStore).cleanup t, next)
  | none =>
    let autoAck := s.policy.autoAck.enabled
      && s.policy.autoAck.severities.contains input.severity
      && s.policy.autoAck.kinds.contains input.kind
    let it : ConflictItem :=
      { v := 1, id := id, createdAtMs := t, updatedAtMs := t,
        localClientTag := s.localClientTag, severity := input.severity,
        kind := input.kind,
        status := if autoAck then .acked else .opened,
        sourcePeer := input.sourcePeer,
        title := input.title, detail := input.detail, payload := input.payload,
        related := input.related,
        recommendedAction := input.recommendedAction.getD "none" }
    (({ s with items := setItem id it s.items, order := s.order ++ [id] } :
        ConflictStore).cleanup t, it)

/-- `setStatus` (the shared body of ack/resolve/ignore operator actions). -/
def ConflictStore.setStatus (s : ConflictStore) (id : String) (status : ConflictStatus)
    (t : Nat) : ConflictStore × Bool :=
  match lookupItem s.items id with
  | none => (s, false)
  | some it =>
    (({ s with items := setItem id { it with status := status, updatedAtMs := t } s.items } :
        ConflictStore).cleanup t, true)


/-- One audit-log event (JSONL line). Optional fields model `undefined`. -/
structure AuditEvent where
  v : Int
  sessionId : String
  clientId : String
  tsWallMs : Int
  tsMonoMs : Option Int
  type : String
  ok : Bool
  docId : Option String
  room : Option String
  runId : Option String
  payload : Option Json
  prevHash : Option String
  hash : Option String
  deriving Repr, DecidableEq

/-- JavaScript truthiness of an optional string (absent and empty are falsy). -/
def strTruthy : Option String → Bool
  | some s => s != ""
  | none => false

/-- `canonicalLineForHash`: the JSON line hashed for event `seq`, with the
event's own `hash` stripped and absent fields encoded as null, keys in
source order. -/
def canonicalLineForHash (e : AuditEvent) (seq : Nat) : String :=
  Json.stringify (.obj
    [("seq", .num seq),
     ("v", .num e.v),
     ("sessionId", .str e.sessionId),
     ("clientId", .str e.clientId),
     ("tsWallMs", .num e.tsWallMs),
     ("tsMonoMs", optIntJson e.tsMonoMs),
     ("type", .str e.type),
     ("ok", .bool e.ok),
     ("docId", optStrJson e.docId),
     ("room", optStrJson e.room),
     ("runId", optStrJson e.runId),
     ("prevHash", optStrJson e.prevHash),
     ("payload", e.payload.getD .null)])

/-- Result of `verifyHashChain`. -/
structure HashChainResult where
  ok : Bool
  checked : Nat
  firstBadIndex : Option Nat
  reason : Option String
  deriving Repr, DecidableEq

/-- The loop of `verifyHashChain` from index `i` with running `prev` hash:
events without a (truthy) hash are skipped entirely; a truthy `prevHash`
must equal the running hash; the recomputed canonical hash, when nonempty,
must equal the stored one. -/
def verifyFrom (H : String → String) : List AuditEvent → Nat → String → HashChainResult
  | [], i, _ => ⟨true, i, none, none⟩
  | e :: rest, i, prev =>
    if strTruthy e.hash = false then verifyFrom H rest (i + 1) prev
    else if strTruthy e.prevHash = true ∧ e.prevHash ≠ some prev then
      ⟨false, i + 1, some i, some "prevHash mismatch"⟩
    else
      let h := H (canonicalLineForHash e i)
      if h ≠ "" ∧ e.hash ≠ some h then ⟨false, i + 1, some i, some "hash mismatch"⟩
      else verifyFrom H rest (i + 1) (e.hash.getD prev)

/-- `verifyHashChain`: verify the whole chain starting from an empty running
hash; on success `checked` is the event count. -/
def verifyHashChain (H : String → String) (events : List AuditEvent) : HashChainResult :=
  verifyFrom H events 0 ""

/-- `extractSetFromCrdt`: accept `(path, value)` from a `crdt.set` payload
shaped either `\x7bpath, value\x7d` or `\x7bset: \x7bpath, value\x7d\x7d`. -/
def extractSetFromCrdt (payload : Option Json) : Option (String × Json) :=
  let pl := payload.getD .null
  let pv : Json :=
    match getField pl "path" with
    | some pathv => if jsTruthy pathv then pl else (getField pl "set").getD .null
    | none => (getField pl "set").getD .null
  if jsTruthy pv = false then none
  else
    let path := match getField pv "path" with
      | some .null => ""
      | some x => jsToString x
      | none => ""
    if path = "" then none else some (path, (getField pv "value").getD .null)

/-- One action of an `nl.actions` payload: applied only when it is an object
with `type === "set_value"` and a nonempty path. -/
def extractNlSet (a : Json) : Option (String × Json) :=
  let isObjLike := match a with
    | .obj _ => true
    | .arr _ => true
    | _ => false
  if isObjLike = false then none
  else if (getField a "type") ≠ some (.str "set_value") then none
  else
    let path := match getField a "path" with
      | some .null => ""
      | some x => jsToString x
      | none => ""
    if path = "" then none else some (path, (getField a "value").getD .null)

/-- The allowed-path-prefix gate of the replay engine: empty prefix list
admits everything. -/
def allowedPath (path : String) (pfxList : List String) : Bool :=
  pfxList.isEmpty || pfxList.any (fun p => path.startsWith p)

/-- `ReplayStateStore.set`: dot-path assignment, ignoring an empty part
list. -/
def storeSet (root : Json) (path : String) (value : Json) : Json :=
  let parts := splitPath path
  if parts.isEmpty then root else setParts parts root value

/-- `replayAuditLog` reduced to its deterministic state store: interpret
whitelisted `nl.actions` and `crdt.set` events into dot-path sets, rejecting
paths outside the allowed prefixes and ignoring every other event type. -/
def replayRoot (events : List AuditEvent) (pfxList : List String) : Json :=
  events.foldl (fun root e =>
    if e.type == "nl.actions" && e.ok then
      let acts := match getField (e.payload.getD .null) "actions" with
        | some (.arr xs) => xs
        | _ => []
      acts.foldl (fun r a =>
        match extractNlSet a with
        | none => r
        | some pv => if allowedPath pv.1 pfxList then storeSet r pv.1 pv.2 else r) root
    else if e.type == "crdt.set" && e.ok then
      match extractSetFromCrdt e.payload with
      | none => root
      | some pv => if allowedPath pv.1 pfxList then storeSet root pv.1 pv.2 else root
    else root) (.obj [])

/-- `prefixHash`: the stable hash of the state replayed from the first `n`
events. -/
def prefixHash (H : String → String) (events : List AuditEvent) (n : Nat)
    (pfxList : List String) : String :=
  H (stableStringify (replayRoot (events.take n) pfxList))

/-- Result of the first-divergence locator. -/
structure FirstDivergenceResult where
  ok : Bool
  firstIndex : Option Int
  leftHash : Option String
  rightHash : Option String
  note : Option String
  deriving Repr, DecidableEq

/-- The binary-search loop of `findFirstDivergence` over JavaScript number
indices (integers): `pEq m` says the two prefix hashes of length `m` agree;
returns the located first index together with the number of `prefixHash`
computations (two per iteration). -/
def bsearchDiverge (pEq : Int → Bool) (lo hi first : Int) : Int × Nat :=
  if h : hi < lo then (first, 0)
  else
    let mid := (lo + hi) / 2
    if pEq mid then
      let r := bsearchDiverge pEq (mid + 1) hi first
      (r.1, r.2 + 2)
    else
      let r := bsearchDiverge pEq lo (mid - 1) mid
      (r.1, r.2 + 2)
termination_by (hi + 1 - lo).toNat
decreasing_by
  · simp_wf
    omega
  · simp_wf
    omega

/-- `findFirstDivergence` with an explicit count of `prefixHash` replays
(each `await prefixHash` of the source counts one): compare the full common
prefix first; when the end hashes differ, binary-search the earliest
differing prefix length, then recompute the boundary hashes. -/
def findFirstDivergence (H : String → String) (eventsA eventsB : List AuditEvent)
    (pfxList : List String) : FirstDivergenceResult × Nat :=
  let nMax := min eventsA.length eventsB.length
  let hEndA := prefixHash H eventsA nMax pfxList
  let hEndB := prefixHash H eventsB nMax pfxList
  if hEndA = hEndB then
    if eventsA.length = eventsB.length then (⟨true, none, none, none, none⟩, 2)
    else
      (⟨false, some ((nMax : Int) + 1), some hEndA, some "",
        some "States match through min length; divergence may occur after due to extra events in one log."⟩, 2)
  else
    let pEq : Int → Bool := fun m =>
      prefixHash H eventsA m.toNat pfxList == prefixHash H eventsB m.toNat pfxList
    let r := bsearchDiverge pEq 1 nMax nMax
    let first := r.1
    let leftIdx := max 0 (first - 1)
    let leftHashA := prefixHash H eventsA leftIdx.toNat pfxList
    let leftHashB := prefixHash H eventsB leftIdx.toNat pfxList
    let leftHash := if leftHashA = leftHashB then leftHashA else ""
    let rightHashA := prefixHash H eventsA first.toNat pfxList
    let rightHashB := prefixHash H eventsB first.toNat pfxList
    (⟨false, some first, some leftHash, some (rightHashA ++ "|" ++ rightHashB), none⟩,
      2 + r.2 + 4)


/-- Diff kinds of the bounded deep-diff report. -/
inductive DiffKind where
  | type
  | value
  | missing_local
  | missing_ref
  deriving Repr, DecidableEq

/-- One collected diff entry (`localV`/`refV` model the source fields
`local`/`ref`, which hold `undefined` for missing sides). -/
structure DiffItem where
  path : String
  localV : Option Json
  refV : Option Json
  kind : DiffKind
  deriving Repr, DecidableEq

/-- Options of the divergence report. -/
structure DivergenceReportOptions where
  maxDiffs : Nat
  maxDepth : Nat
  maxValueChars : Nat
  deriving Repr, DecidableEq

/-- The source defaults: 50 diffs, depth 12, 240 value characters. -/
def divergenceDefaults : DivergenceReportOptions := ⟨50, 12, 240⟩

/-- JavaScript strict equality `===` on JSON values: value equality for
primitives; reference equality for arrays and objects, modelled
conservatively as false (recursion then finds no member diffs). -/
def jsStrictEq : Json → Json → Bool
  | .null, .null => true
  | .bool a, .bool b => a == b
  | .num a, .num b => a == b
  | .str a, .str b => a == b
  | _, _ => false

/-- The dot-safe identifier test of `pathJoin`. -/
def isIdentName (s : String) : Bool :=
  match s.data with
  | [] => false
  | c :: rest => (c.isAlpha || c == '_' || c == '$')
      && rest.all (fun d => d.isAlphanum || d == '_' || d == '$')

/-- `key.replaceAll('"', '\\"')`. -/
def escapeQuotes (s : String) : String :=
  ⟨(s.data.map (fun c => if c = '"' then ['\\', '"'] else [c])).flatten⟩

/-- `pathJoin` for string keys. -/
def pathJoinKey (base key : String) : String :=
  if base = "" then key
  else if isIdentName key then base ++ "." ++ key
  else base ++ "[\"" ++ escapeQuotes key ++ "\"]"

/-- `pathJoin` for numeric (array index) keys. -/
def pathJoinIdx (base : String) (i : Nat) : String :=
  if base = "" then ⟨natDecimal i⟩
  else base ++ "[" ++ (⟨natDecimal i⟩ : String) ++ "]"

/-- `clipValue`: strings are truncated with an ellipsis, numbers and
booleans pass through, arrays and objects print as clipped compact JSON. -/
def clipValue (x : Json) (maxChars : Nat) : Json :=
  match x with
  | .null => .null
  | .str s => if s.length > maxChars then .str (s.take maxChars ++ "…") else .str s
  | .num n => .num n
  | .bool b => .bool b
  | other =>
    let s := Json.stringify other
    .str (if s.length > maxChars then s.take maxChars ++ "…" else s)

/-- `pushDiff`: appends a clipped entry unless the diff list is full. -/
def pushDiff (out : List DiffItem) (item : DiffItem)
    (opts : DivergenceReportOptions) : List DiffItem :=
  if out.length ≥ opts.maxDiffs then out
  else out ++ [{ item with
    localV := item.localV.map (clipValue · opts.maxValueChars),
    refV := item.refV.map (clipValue · opts.maxValueChars) }]

/-- First-insertion-order deduplication (a JavaScript `Set`). -/
def dedupKeys (ks : List String) : List String :=
  ks.foldl (fun acc k => if acc.contains k then acc else acc ++ [k]) []

/-- Insertion step of string sorting. -/
def insertSortedStr (k : String) : List String → List String
  | [] => [k]
  | k2 :: rest => if strLt k k2 then k :: k2 :: rest else k2 :: insertSortedStr k rest

/-- `Array.prototype.sort` on strings. -/
def sortStrs : List String → List String
  | [] => []
  | k :: rest => insertSortedStr k (sortStrs rest)

/-- The sorted key union visited by the object branch of `deepDiff`. -/
def sortedKeyUnion (lm rm : List (String × Json)) : List String :=
  sortStrs (dedupKeys (lm.map Prod.fst ++ rm.map Prod.fst))

/-- `deepDiff`, fuelled by remaining depth (`fuel = maxDepth + 1 - depth`, so
the source's `depth > maxDepth` early return is `fuel = 0`). The state
threaded through the loops is (collected diffs, first mismatch path, stop
flag); the stop flag models the source's early `return`. -/
def deepDiffF : Nat → Json → Json → String → List DiffItem → Option String →
    DivergenceReportOptions → List DiffItem × Option String
  | 0, _, _, _, out, first, _ => (out, first)
  | fuel + 1, lv, rv, basePath, out, first, opts =>
    if out.length ≥ opts.maxDiffs then (out, first)
    else if jsStrictEq lv rv then (out, first)
    else if typeTag lv ≠ typeTag rv then
      let p := if basePath = "" then "(root)" else basePath
      (pushDiff out ⟨p, some lv, some rv, .type⟩ opts,
       if first.isNone then some p else first)
    else if lv = .null ∨ rv = .null ∨ typeofJs lv ≠ "object" then
      let p := if basePath = "" then "(root)" else basePath
      (pushDiff out ⟨p, some lv, some rv, .value⟩ opts,
       if first.isNone then some p else first)
    else
      match lv, rv with
      | .arr ls, .arr rs =>
        let res := (List.range (max ls.length rs.length)).foldl (fun st i =>
          if st.2.2 then st
          else if st.1.length ≥ opts.maxDiffs then (st.1, st.2.1, true)
          else
            match ls.get? i, rs.get? i with
            | none, some r =>
              let p := pathJoinIdx basePath i
              (pushDiff st.1 ⟨p, none, some r, .missing_local⟩ opts,
               if st.2.1.isNone then some p else st.2.1, false)
            | some l, none =>
              let p := pathJoinIdx basePath i
              (pushDiff st.1 ⟨p, some l, none, .missing_ref⟩ opts,
               if st.2.1.isNone then some p else st.2.1, false)
            | some l, some r =>
              let d := deepDiffF fuel l r (pathJoinIdx basePath i) st.1 st.2.1 opts
              (d.1, d.2, d.2.isSome && decide (d.1.length ≥ opts.maxDiffs))
            | none, none => st)
          ((out, first, false) : List DiffItem × Option String × Bool)
        (res.1, res.2.1)
      | .obj lm, .obj rm =>
        let res := (sortedKeyUnion lm rm).foldl (fun st k =>
          if st.2.2 then st
          else if st.1.length ≥ opts.maxDiffs then (st.1, st.2.1, true)
          else
            let p := pathJoinKey basePath k
            match lookupKey k lm, lookupKey k rm with
            | none, some rv2 =>
              (pushDiff st.1 ⟨p, none, some rv2, .missing_local⟩ opts,
               if st.2.1.isNone then some p else st.2.1, false)
            | some lv2, none =>
              (pushDiff st.1 ⟨p, some lv2, none, .missing_ref⟩ opts,
               if st.2.1.isNone then some p else st.2.1, false)
            | some lv2, some rv2 =>
              let d := deepDiffF fuel lv2 rv2 p st.1 st.2.1 opts
              (d.1, d.2, false)
            | none, none => st)
          ((out, first, false) : List DiffItem × Option String × Bool)
        (res.1, res.2.1)
      | _, _ => (out, first)

/-- The divergence report returned to dashboards. -/
structure DivergenceReport where
  ok : Bool
  localHash : String
  refHash : String
  firstMismatchPath : Option String
  diffs : List DiffItem
  deriving Repr, DecidableEq

/-- `firstDivergenceReport`: hash both trees, run the bounded deep diff from
the root (null inputs are replaced by empty objects, as `x ?? \x7b\x7d`
does), and report `ok` iff the collected diff list is empty. -/
def firstDivergenceReport (H : String → String) (localJ refJ : Json)
    (opts : DivergenceReportOptions) : DivergenceReport :=
  let l := if localJ = .null then Json.obj [] else localJ
  let r := if refJ = .null then Json.obj [] else refJ
  let dres := deepDiffF (opts.maxDepth + 1) l r "" [] none opts
  { ok := dres.1.length == 0,
    localHash := H (stableStringify l),
    refHash := H (stableStringify r),
    firstMismatchPath := dres.2,
    diffs := dres.1 }

/-- A vote choice. -/
inductive VoteChoice where
  | approve
  | reject
  deriving Repr, DecidableEq

/-- One recorded upgrade vote (`voter` models the source field `from`, a
Lean keyword). -/
structure UpgradeVote where
  v : Nat
  proposalId : String
  voter : String
  atMs : Nat
  vote : VoteChoice
  reason : Option String
  deriving Repr, DecidableEq

/-- One known peer in the upgrade snapshot. -/
structure UpgradePeer where
  clientTag : String
  schemaVersion : Option String
  stateHash : Option String
  deriving Repr, DecidableEq

/-- The proposal as `isApproved` consults it (only its id matters there). -/
structure UpgradeProposalLite where
  proposalId : String
  deriving Repr, DecidableEq

/-- The snapshot fields `isApproved` reads. -/
structure UpgradeSnapshotSt where
  peers : List UpgradePeer
  proposal : Option UpgradeProposalLite
  deriving Repr, DecidableEq

/-- Result of `isApproved`. -/
structure ApprovalResult where
  ok : Bool
  reason : String
  deriving Repr, DecidableEq

/-- `CRDTUpgradeManager.isApproved`: any reject vote on the tracked proposal
fails approval; otherwise `all` needs every counted participant
(`peers + 1`, the local vote included) and `majority` needs a strict
majority of them. -/
def isApproved (snap : UpgradeSnapshotSt) (votes : List UpgradeVote)
    (quorum : String) : ApprovalResult :=
  match snap.proposal with
  | none => ⟨false, "no proposal"⟩
  | some proposal =>
    let peerCount := snap.peers.length + 1
    let vs := votes.filter (fun v => v.proposalId == proposal.proposalId)
    let approves := (vs.filter (fun v => v.vote == .approve)).length
    let rejects := (vs.filter (fun v => v.vote == .reject)).length
    if rejects > 0 then ⟨false, "rejected"⟩
    else if quorum = "all" then
      ⟨decide (approves ≥ peerCount),
       "approves=" ++ (⟨natDecimal approves⟩ : String) ++ "/"
         ++ (⟨natDecimal peerCount⟩ : String)⟩
    else
      let need := peerCount / 2 + 1
      ⟨decide (approves ≥ need),
       "approves=" ++ (⟨natDecimal approves⟩ : String) ++ "/"
         ++ (⟨natDecimal need⟩ : String)⟩

/-- The `proposalCore` hashed into the proposal id: everything about the
proposal except its timestamp. -/
def proposalCoreJson (createdBy : String) (plan : Json) (notes : List String)
    (fromMeta : Json) : Json :=
  .obj [("v", .num 1), ("createdBy", .str createdBy), ("plan", plan),
        ("precheck", .obj [("ok", .bool true), ("notes", .arr (notes.map Json.str)),
          ("fromMeta", fromMeta)])]

/-- The deterministic proposal id: `u_` plus the first 20 characters of the
hash of the canonical serialization of the proposal core. -/
def mkProposalId (H : String → String) (createdBy : String) (plan : Json)
    (notes : List String) (fromMeta : Json) : String :=
  "u_" ++ strTake (H (canonicalJSONStringify (proposalCoreJson createdBy plan notes fromMeta))) 20

/-- An upgrade proposal as `proposeUpgrade` builds it (content plus
creation timestamp). -/
structure UpgradeProposal where
  proposalId : String
  createdAtMs : Nat
  createdBy : String
  plan : Json
  notes : List String
  fromMeta : Json
  deriving Repr, DecidableEq

/-- The proposal constructed by `proposeUpgrade` at time `now`. -/
def mkProposal (H : String → String) (createdBy : String) (plan : Json)
    (notes : List String) (fromMeta : Json) (now : Nat) : UpgradeProposal :=
  ⟨mkProposalId H createdBy plan notes fromMeta, now, createdBy, plan, notes, fromMeta⟩


/-- Patch kinds under the strict concurrency policy. -/
def Patch.isSetOrMerge : Patch → Bool
  | .set _ => true
  | .merge _ => true
  | .pathset _ _ => false

/-- Number of records stored under a given conflict id. -/
def countId (s : ConflictStore) (id : String) : Nat :=
  (s.items.filter (fun p => p.1 == id)).length


theorem natDecAux_zero : ∀ fuel, natDecAux fuel 0 = [] := by
  intro fuel; cases fuel <;> simp [natDecAux]

theorem digitChar_isDigit (d : Nat) : isDigitC (digitChar d) = true := by
  unfold digitChar; split <;> decide

theorem digitChar_ne_zero (d : Nat) (h : d ≠ 0) : digitChar d ≠ '0' := by
  unfold digitChar; split <;> first | omega | decide

theorem digitVal_digitChar (d : Nat) (h : d < 10) : digitVal (digitChar d) = d := by
  interval_cases d <;> decide

theorem natDecAux_digits : ∀ fuel n c, c ∈ natDecAux fuel n → isDigitC c = true := by
  intro fuel
  induction fuel with
  | zero => intro n c h; simp [natDecAux] at h
  | succ fuel ih =>
    intro n c h
    by_cases hn : n = 0
    · simp [natDecAux, hn] at h
    · simp [natDecAux, hn] at h
      rcases h with h | h
      · exact ih _ _ h
      · subst h; exact digitChar_isDigit _

theorem digitsToNat_append_one (xs : List Char) (c : Char) :
    digitsToNat (xs ++ [c]) = digitsToNat xs * 10 + digitVal c := by
  simp [digitsToNat, List.foldl_append]

theorem natDecAux_val : ∀ fuel n, n ≤ fuel → digitsToNat (natDecAux fuel n) = n := by
  intro fuel
  induction fuel with
  | zero => intro n h; have : n = 0 := by omega
            simp [this, natDecAux_zero, digitsToNat]
  | succ fuel ih =>
    intro n h
    by_cases hn : n = 0
    · simp [natDecAux, hn, digitsToNat]
    · have h10 : n / 10 ≤ fuel := by omega
      simp [natDecAux, hn, digitsToNat_append_one, ih _ h10,
        digitVal_digitChar (n % 10) (by omega)]
      omega

theorem natDecAux_head : ∀ fuel n, n ≠ 0 → n ≤ fuel →
    ∃ c tail, natDecAux fuel n = c :: tail ∧ c ≠ '0' ∧ isDigitC c = true := by
  intro fuel
  induction fuel with
  | zero => intro n h hle; omega
  | succ fuel ih =>
    intro n hn hle
    by_cases h10 : n / 10 = 0
    · refine ⟨digitChar (n % 10), [], ?_, ?_, digitChar_isDigit _⟩
      · simp [natDecAux, hn, h10, natDecAux_zero]
      · exact digitChar_ne_zero _ (by omega)
    · obtain ⟨c, tail, heq, h0, hd⟩ := ih (n / 10) h10 (by omega)
      exact ⟨c, tail ++ [digitChar (n % 10)], by simp [natDecAux, hn, heq], h0, hd⟩

theorem natDecimal_head (n : Nat) :
    ∃ c tail, natDecimal n = c :: tail ∧ isDigitC c = true := by
  by_cases hn : n = 0
  · exact ⟨'0', [], by simp [natDecimal, hn], by decide⟩
  · obtain ⟨c, tail, heq, _, hd⟩ := natDecAux_head n n hn le_rfl
    exact ⟨c, tail, by simp [natDecimal, hn, heq], hd⟩

theorem natDecimal_digits (n : Nat) : ∀ c ∈ natDecimal n, isDigitC c = true := by
  by_cases hn : n = 0
  · simp [natDecimal, hn]; decide
  · simp only [natDecimal, hn, if_false]
    exact fun c h => natDecAux_digits n n c h

theorem digitsToNat_natDecimal (n : Nat) : digitsToNat (natDecimal n) = n := by
  by_cases hn : n = 0
  · simp [natDecimal, hn]; decide
  · simp [natDecimal, hn, natDecAux_val n n le_rfl]

theorem takeWhile_append_digits (xs rest : List Char)
    (hxs : ∀ c ∈ xs, isDigitC c = true) (hrest : delimOkB rest = true) :
    (xs ++ rest).takeWhile isDigitC = xs ∧ (xs ++ rest).dropWhile isDigitC = rest := by
  induction xs with
  | nil =>
    simp only [List.nil_append]
    cases rest with
    | nil => simp
    | cons c tl =>
      simp [delimOkB] at hrest
      simp [List.takeWhile, List.dropWhile, hrest]
  | cons c tl ih =>
    have hc : isDigitC c = true := hxs c (by simp)
    have := ih (fun d hd => hxs d (by simp [hd]))
    simp [List.takeWhile, List.dropWhile, hc, this.1, this.2]

theorem readNatNum_rt (n : Nat) (rest : List Char) (hrest : delimOkB rest = true) :
    readNatNum (natDecimal n ++ rest) = some (n, rest) := by
  obtain ⟨tw, dw⟩ := takeWhile_append_digits (natDecimal n) rest (natDecimal_digits n) hrest
  obtain ⟨c, tail, heq, _⟩ := natDecimal_head n
  have hne : (natDecimal n).isEmpty = false := by rw [heq]; rfl
  simp only [readNatNum, tw, dw, hne, digitsToNat_natDecimal, Bool.false_eq_true,
    if_false]

theorem readNum_rt (i : Int) (rest : List Char) (hrest : delimOkB rest = true) :
    readNum (intDecimal i ++ rest) = some (.num i, rest) := by
  by_cases hi : i < 0
  · simp only [intDecimal, hi, if_true, List.cons_append]
    simp only [readNum, readNatNum_rt i.natAbs rest hrest, Option.map_some']
    have : -((i.natAbs : Nat) : Int) = i := by omega
    rw [this]
  · simp only [intDecimal, hi, if_false]
    obtain ⟨c, tail, heq, hd⟩ := natDecimal_head i.toNat
    rw [heq, List.cons_append]
    have hcm : c ≠ '-' := by
      intro h; subst h; exact absurd hd (by decide)
    unfold readNum
    split
    · rename_i rest2 hmatch
      exact absurd (List.head_eq_of_cons_eq hmatch) hcm
    · rw [← List.cons_append, ← heq, readNatNum_rt _ _ hrest]
      have : ((i.toNat : Nat) : Int) = i := Int.toNat_of_nonneg (by omega)
      simp [this]

theorem readStr_escape : ∀ s rest, readStr (escapeChars s ++ '"' :: rest) = some (s, rest) := by
  intro s
  induction s with
  | nil => intro rest; simp [escapeChars, readStr]
  | cons c tl ih =>
    intro rest
    rw [show escapeChars (c :: tl) = escChar c ++ escapeChars tl from by simp [escapeChars],
      List.append_assoc]
    by_cases hq : c = '"'
    · subst hq
      rw [show escChar '"' = ['\\', '"'] from rfl]
      simp [readStr, ih]
    · by_cases hb : c = '\\'
      · subst hb
        rw [show escChar '\\' = ['\\', '\\'] from rfl]
        simp [readStr, ih]
      · rw [show escChar c = [c] from by simp [escChar, hq, hb]]
        simp [readStr, hq, hb, ih]

theorem readNum_head_ne (c : Char) (tail : List Char) (hcm : c ≠ '-') :
    readNum (c :: tail) = (readNatNum (c :: tail)).map (fun p => (.num (p.1 : Int), p.2)) := by
  rw [readNum.eq_def]
  split
  · rename_i rest2 hmatch
    exact absurd (List.head_eq_of_cons_eq hmatch) hcm
  · rfl

theorem notStarters (c : Char) (hc : isDigitC c = true ∨ c = '-') :
    c ≠ 'n' ∧ c ≠ 't' ∧ c ≠ 'f' ∧ c ≠ '"' ∧ c ≠ '[' ∧ c ≠ '\x7b' := by
  rcases hc with h | h
  · exact ⟨fun he => absurd (he ▸ h) (by decide), fun he => absurd (he ▸ h) (by decide),
      fun he => absurd (he ▸ h) (by decide), fun he => absurd (he ▸ h) (by decide),
      fun he => absurd (he ▸ h) (by decide), fun he => absurd (he ▸ h) (by decide)⟩
  · subst h; refine ⟨by decide, by decide, by decide, by decide, by decide, by decide⟩

theorem readJson_num (fuel : Nat) (c : Char) (tail : List Char)
    (hc : isDigitC c = true ∨ c = '-') :
    readJson (fuel + 1) (c :: tail) = readNum (c :: tail) := by
  obtain ⟨h1, h2, h3, h4, h5, h6⟩ := notStarters c hc
  simp only [readJson, if_neg h1, if_neg h2, if_neg h3, if_neg h4, if_neg h5, if_neg h6]

theorem intDecimal_head (i : Int) :
    ∃ c tail, intDecimal i = c :: tail ∧ (isDigitC c = true ∨ c = '-') := by
  by_cases hi : i < 0
  · exact ⟨'-', natDecimal i.natAbs, by simp [intDecimal, hi], Or.inr rfl⟩
  · obtain ⟨c, tail, heq, hd⟩ := natDecimal_head i.toNat
    exact ⟨c, tail, by simp [intDecimal, hi, heq], Or.inl hd⟩

theorem digit_not_delims (c : Char) (hd : isDigitC c = true) :
    c ≠ ']' ∧ c ≠ '\x7d' ∧ c ≠ ',' ∧ c ≠ ':' := by
  exact ⟨fun he => absurd (he ▸ hd) (by decide), fun he => absurd (he ▸ hd) (by decide),
    fun he => absurd (he ▸ hd) (by decide), fun he => absurd (he ▸ hd) (by decide)⟩

theorem stringify_head (j : Json) :
    ∃ c tail, stringifyJ j = c :: tail ∧ c ≠ ']' ∧ c ≠ '\x7d' ∧ c ≠ ',' := by
  cases j with
  | null => exact ⟨'n', _, rfl, by decide, by decide, by decide⟩
  | bool b =>
    cases b
    · exact ⟨'f', _, rfl, by decide, by decide, by decide⟩
    · exact ⟨'t', _, rfl, by decide, by decide, by decide⟩
  | num i =>
    obtain ⟨c, tail, heq, hc⟩ := intDecimal_head i
    rcases hc with hd | hm
    · obtain ⟨d1, d2, d3, _⟩ := digit_not_delims c hd
      exact ⟨c, tail, by simp [stringifyJ, heq], d1, d2, d3⟩
    · subst hm
      exact ⟨'-', tail, by simp [stringifyJ, heq], by decide, by decide, by decide⟩
  | str s => exact ⟨'"', _, rfl, by decide, by decide, by decide⟩
  | arr xs => exact ⟨'[', _, rfl, by decide, by decide, by decide⟩
  | obj kvs => exact ⟨'\x7b', _, rfl, by decide, by decide, by decide⟩

theorem sizeJ_pos (j : Json) : 1 ≤ sizeJ j := by
  cases j <;> simp [sizeJ]

theorem sizeItems_pos (x : Json) (xs : List Json) : 1 ≤ sizeItems (x :: xs) := by
  simp [sizeItems]

theorem sizeMembers_pos (m : String × Json) (kvs : List (String × Json)) :
    1 ≤ sizeMembers (m :: kvs) := by
  obtain ⟨k, v⟩ := m; simp [sizeMembers]

theorem delimOk_cons_of (c : Char) (tl : List Char) (h : isDigitC c = false) :
    delimOkB (c :: tl) = true := by
  simp [delimOkB, h]

theorem readJson_null (fuel : Nat) (r : List Char) :
    readJson (fuel + 1) ('n' :: 'u' :: 'l' :: 'l' :: r) = some (.null, r) := by
  simp [readJson]

theorem readJson_true (fuel : Nat) (r : List Char) :
    readJson (fuel + 1) ('t' :: 'r' :: 'u' :: 'e' :: r) = some (.bool true, r) := by
  simp [readJson]

theorem readJson_false (fuel : Nat) (r : List Char) :
    readJson (fuel + 1) ('f' :: 'a' :: 'l' :: 's' :: 'e' :: r) = some (.bool false, r) := by
  simp [readJson]

theorem readJson_str (fuel : Nat) (tl : List Char) :
    readJson (fuel + 1) ('"' :: tl) = (readStr tl).map (fun p => (.str ⟨p.1⟩, p.2)) := by
  simp [readJson]

theorem readJson_arr_nil (fuel : Nat) (r : List Char) :
    readJson (fuel + 1) ('[' :: ']' :: r) = some (.arr [], r) := by
  simp [readJson]

theorem readJson_arr_cons (fuel : Nat) (c : Char) (tl : List Char) (h : c ≠ ']') :
    readJson (fuel + 1) ('[' :: c :: tl) = readItems fuel (c :: tl) [] := by
  simp [readJson, h]

theorem readJson_obj_nil (fuel : Nat) (r : List Char) :
    readJson (fuel + 1) ('\x7b' :: '\x7d' :: r) = some (.obj [], r) := by
  simp [readJson]

theorem readJson_obj_cons (fuel : Nat) (c : Char) (tl : List Char) (h : c ≠ '\x7d') :
    readJson (fuel + 1) ('\x7b' :: c :: tl) = readMembersR fuel (c :: tl) [] := by
  simp [readJson, h]

theorem read_stringify : ∀ fuel : Nat,
    (∀ j rest, sizeJ j ≤ fuel → delimOkB rest = true →
      readJson fuel (stringifyJ j ++ rest) = some (j, rest)) ∧
    (∀ x xs acc rest, sizeItems (x :: xs) ≤ fuel →
      readItems fuel (stringifyItems (x :: xs) ++ ']' :: rest) acc
        = some (.arr (acc ++ x :: xs), rest)) ∧
    (∀ k v kvs acc rest, sizeMembers ((k, v) :: kvs) ≤ fuel →
      readMembersR fuel (stringifyMembers ((k, v) :: kvs) ++ '\x7d' :: rest) acc
        = some (.obj (acc ++ (k, v) :: kvs), rest)) := by
  intro fuel
  induction fuel with
  | zero =>
    refine ⟨?_, ?_, ?_⟩
    · intro j rest hsz _; exact absurd hsz (by have := sizeJ_pos j; omega)
    · intro x xs acc rest hsz; exact absurd hsz (by have := sizeItems_pos x xs; omega)
    · intro k v kvs acc rest hsz; exact absurd hsz (by have := sizeMembers_pos (k, v) kvs; omega)
  | succ fuel ih =>
    obtain ⟨ihJ, ihI, ihM⟩ := ih
    refine ⟨?_, ?_, ?_⟩
    · intro j rest hsz hrest
      cases j with
      | null => simpa [stringifyJ] using readJson_null fuel rest
      | bool b =>
        cases b
        · simpa [stringifyJ] using readJson_false fuel rest
        · simpa [stringifyJ] using readJson_true fuel rest
      | num i =>
        obtain ⟨c, tail, heq, hstart⟩ := intDecimal_head i
        have hshape : stringifyJ (.num i) ++ rest = c :: (tail ++ rest) := by
          simp [stringifyJ, heq]
        rw [hshape, readJson_num fuel c _ hstart, ← List.cons_append, ← heq]
        exact readNum_rt i rest hrest
      | str s =>
        have hshape : stringifyJ (.str s) ++ rest
            = '"' :: (escapeChars s.data ++ '"' :: rest) := by
          simp [stringifyJ]
        rw [hshape, readJson_str, readStr_escape]
        rfl
      | arr xs =>
        cases xs with
        | nil =>
          have hshape : stringifyJ (.arr []) ++ rest = '[' :: ']' :: rest := by
            simp [stringifyJ, stringifyItems]
          rw [hshape, readJson_arr_nil]
        | cons x xs2 =>
          obtain ⟨c, tl, hhd, hc1, hc2, hc3⟩ := stringify_head x
          have hitems : ∃ tl2, stringifyItems (x :: xs2) = c :: tl2 := by
            cases xs2 <;> simp [stringifyItems, hhd]
          obtain ⟨tl2, hit⟩ := hitems
          have hshape : stringifyJ (.arr (x :: xs2)) ++ rest
              = '[' :: c :: (tl2 ++ ']' :: rest) := by
            simp [stringifyJ, hit]
          rw [hshape, readJson_arr_cons fuel c _ hc1]
          have h2 : c :: (tl2 ++ ']' :: rest) = stringifyItems (x :: xs2) ++ ']' :: rest := by
            simp [hit]
          rw [h2]
          have := ihI x xs2 [] rest (by simp [sizeJ] at hsz; omega)
          simpa using this
      | obj kvs =>
        cases kvs with
        | nil =>
          have hshape : stringifyJ (.obj []) ++ rest = '\x7b' :: '\x7d' :: rest := by
            simp [stringifyJ, stringifyMembers]
          rw [hshape, readJson_obj_nil]
        | cons m kvs2 =>
          obtain ⟨k, v⟩ := m
          have hmem : ∃ tl2, stringifyMembers ((k, v) :: kvs2) = '"' :: tl2 := by
            cases kvs2 with
            | nil =>
              exact ⟨escapeChars k.data ++ '"' :: ':' :: stringifyJ v,
                by simp [stringifyMembers]⟩
            | cons m2 kvs3 =>
              exact ⟨escapeChars k.data ++ '"' :: ':' :: (stringifyJ v
                ++ ',' :: stringifyMembers (m2 :: kvs3)), by simp [stringifyMembers]⟩
          obtain ⟨tl2, hit⟩ := hmem
          have hshape : stringifyJ (.obj ((k, v) :: kvs2)) ++ rest
              = '\x7b' :: '"' :: (tl2 ++ '\x7d' :: rest) := by
            simp [stringifyJ, hit]
          rw [hshape, readJson_obj_cons fuel '"' _ (by decide)]
          have h2 : '"' :: (tl2 ++ '\x7d' :: rest)
              = stringifyMembers ((k, v) :: kvs2) ++ '\x7d' :: rest := by
            simp [hit]
          rw [h2]
          have := ihM k v kvs2 [] rest (by simp [sizeJ] at hsz; omega)
          simpa using this
    · intro x xs acc rest hsz
      cases xs with
      | nil =>
        have hx := ihJ x (']' :: rest) (by simp [sizeItems] at hsz; omega)
          (delimOk_cons_of _ _ (by decide))
        rw [show stringifyItems [x] = stringifyJ x from by simp [stringifyItems]]
        simp only [readItems, hx]
      | cons y xs2 =>
        have hsz1 : sizeJ x ≤ fuel := by simp [sizeItems] at hsz; omega
        have hx := ihJ x (',' :: (stringifyItems (y :: xs2) ++ ']' :: rest)) hsz1
          (delimOk_cons_of _ _ (by decide))
        have hshape : stringifyItems (x :: y :: xs2) ++ ']' :: rest
            = stringifyJ x ++ (',' :: (stringifyItems (y :: xs2) ++ ']' :: rest)) := by
          simp [stringifyItems]
        rw [hshape]
        simp only [readItems, hx]
        have := ihI y xs2 (acc ++ [x]) rest (by simp [sizeItems] at hsz ⊢; omega)
        simpa using this
    · intro k v kvs acc rest hsz
      cases kvs with
      | nil =>
        have hshape : stringifyMembers [(k, v)] ++ '\x7d' :: rest
            = '"' :: (escapeChars k.data ++ '"' :: (':' :: (stringifyJ v ++ '\x7d' :: rest))) := by
          simp [stringifyMembers]
        rw [hshape]
        simp only [readMembersR]
        rw [readStr_escape]
        have hv := ihJ v ('\x7d' :: rest) (by simp [sizeMembers] at hsz; omega)
          (delimOk_cons_of _ _ (by decide))
        simp [hv]
      | cons m2 kvs2 =>
        obtain ⟨k2, v2⟩ := m2
        have hshape : stringifyMembers ((k, v) :: (k2, v2) :: kvs2) ++ '\x7d' :: rest
            = '"' :: (escapeChars k.data ++ '"' :: (':' :: (stringifyJ v
              ++ ',' :: (stringifyMembers ((k2, v2) :: kvs2) ++ '\x7d' :: rest)))) := by
          simp [stringifyMembers]
        rw [hshape]
        simp only [readMembersR]
        rw [readStr_escape]
        have hsz1 : sizeJ v ≤ fuel := by simp [sizeMembers] at hsz; omega
        have hv := ihJ v (',' :: (stringifyMembers ((k2, v2) :: kvs2) ++ '\x7d' :: rest))
          hsz1 (delimOk_cons_of _ _ (by decide))
        simp only [hv]
        have := ihM k2 v2 kvs2 (acc ++ [(k, v)]) rest (by simp [sizeMembers] at hsz ⊢; omega)
        simpa using this

theorem stringifyJ_inj {a b : Json} (h : stringifyJ a = stringifyJ b) : a = b := by
  have ha := (read_stringify (max (sizeJ a) (sizeJ b))).1 a [] (le_max_left _ _) rfl
  have hb := (read_stringify (max (sizeJ a) (sizeJ b))).1 b [] (le_max_right _ _) rfl
  rw [List.append_nil] at ha hb
  rw [h] at ha
  simpa using ha.symm.trans hb

theorem Json.stringify_inj {a b : Json} (h : Json.stringify a = Json.stringify b) : a = b :=
  stringifyJ_inj (congrArg String.data h)

theorem verifyFrom_all_skipped (H : String → String) :
    ∀ (events : List AuditEvent) (i : Nat) (prev : String),
      (∀ e ∈ events, e.hash = none) →
      verifyFrom H events i prev = ⟨true, i + events.length, none, none⟩ := by
  intro events
  induction events with
  | nil => intro i prev _; simp [verifyFrom]
  | cons e rest ih =>
    intro i prev hnone
    have he : e.hash = none := hnone e (by simp)
    have hrest : ∀ e2 ∈ rest, e2.hash = none := fun e2 h2 => hnone e2 (by simp [h2])
    simp only [verifyFrom, he, strTruthy, if_pos]
    rw [ih (i + 1) prev hrest]
    have : i + 1 + rest.length = i + (rest.length + 1) := by omega
    simp [this]

/-- C10: for every event list in which no event carries a hash field,
`verifyHashChain` returns ok with `checked` equal to the list length,
regardless of the events' contents — verification is vacuous on logs
recorded with hashing disabled. -/
theorem c10_verify_vacuous_without_hashes (H : String → String)
    (events : List AuditEvent) (hnone : ∀ e ∈ events, e.hash = none) :
    verifyHashChain H events = ⟨true, events.length, none, none⟩ := by
  rw [verifyHashChain, verifyFrom_all_skipped H events 0 "" hnone]
  simp

/-- Witness for C10 at a concrete two-event hashless log. -/
theorem c10_witness :
    verifyHashChain id
      [⟨1, "s", "c", 0, none, "nl.actions", true, none, none, none, some (.str "p1"), none, none⟩,
       ⟨1, "s", "c", 5, none, "crdt.set", false, some "d", none, none, some (.num 2), some "zz", none⟩]
      = ⟨true, 2, none, none⟩ :=
  c10_verify_vacuous_without_hashes id _ (by decide)

/-- C9: the proposal id built by `proposeUpgrade` is a deterministic hash of
the proposal's content: two proposals with the same content get the same id
even when created at different times, and that id is exactly the canonical
content hash with the `u_` prefix. -/
theorem c9_proposal_id_deterministic (H : String → String) (createdBy : String)
    (plan : Json) (notes : List String) (fromMeta : Json) (t1 t2 : Nat) :
    (mkProposal H createdBy plan notes fromMeta t1).proposalId
      = (mkProposal H createdBy plan notes fromMeta t2).proposalId ∧
    (mkProposal H createdBy plan notes fromMeta t1).proposalId
      = "u_" ++ strTake (H (canonicalJSONStringify
          (proposalCoreJson createdBy plan notes fromMeta))) 20 :=
  ⟨rfl, rfl⟩

/-- C7: with a tracked proposal, `isApproved` holds iff no counted vote
rejects and the approve count reaches the quorum threshold — every counted
participant for "all", a strict majority of `peers + 1` (the local vote
included) otherwise; in particular a single reject vote fails approval
regardless of the approve count. -/
theorem c7_reject_veto_and_majority (snap : UpgradeSnapshotSt)
    (votes : List UpgradeVote) (p : UpgradeProposalLite) (quorum : String)
    (hp : snap.proposal = some p) :
    (isApproved snap votes quorum).ok = true ↔
      (((votes.filter (fun v => v.proposalId == p.proposalId)).filter
          (fun v => v.vote == .reject)).length = 0 ∧
        ((votes.filter (fun v => v.proposalId == p.proposalId)).filter
          (fun v => v.vote == .approve)).length ≥
          (if quorum = "all" then snap.peers.length + 1
           else (snap.peers.length + 1) / 2 + 1)) := by
  unfold isApproved
  rw [hp]
  simp only []
  by_cases hr : ((votes.filter (fun v => v.proposalId == p.proposalId)).filter
      (fun v => v.vote == .reject)).length > 0
  · rw [if_pos hr]
    constructor
    · intro h; exact absurd h (by decide)
    · rintro ⟨h0, -⟩; omega
  · have hr0 : ((votes.filter (fun v => v.proposalId == p.proposalId)).filter
        (fun v => v.vote == .reject)).length = 0 := by omega
    rw [if_neg hr]
    by_cases hq : quorum = "all"
    · rw [if_pos hq, if_pos hq]
      simp only [hr0, true_and, decide_eq_true_eq, ge_iff_le]
    · rw [if_neg hq, if_neg hq]
      simp only [hr0, true_and, decide_eq_true_eq, ge_iff_le]

/-- Witness for C7: one reject among three approves on the tracked proposal
is not approved; with the reject removed, three approves out of
`peers + 1 = 4` is a strict majority. -/
theorem c7_witness :
    (isApproved ⟨[⟨"p1", none, none⟩, ⟨"p2", none, none⟩, ⟨"p3", none, none⟩],
        some ⟨"prop"⟩⟩
      [⟨1, "prop", "a", 0, .approve, none⟩, ⟨1, "prop", "b", 0, .approve, none⟩,
       ⟨1, "prop", "c", 0, .approve, none⟩, ⟨1, "prop", "d", 0, .reject, none⟩]
      "majority").ok = false ∧
    (isApproved ⟨[⟨"p1", none, none⟩, ⟨"p2", none, none⟩, ⟨"p3", none, none⟩],
        some ⟨"prop"⟩⟩
      [⟨1, "prop", "a", 0, .approve, none⟩, ⟨1, "prop", "b", 0, .approve, none⟩,
       ⟨1, "prop", "c", 0, .approve, none⟩]
      "majority").ok = true := by
  constructor
  · have h := c7_reject_veto_and_majority
      ⟨[⟨"p1", none, none⟩, ⟨"p2", none, none⟩, ⟨"p3", none, none⟩], some ⟨"prop"⟩⟩
      [⟨1, "prop", "a", 0, .approve, none⟩, ⟨1, "prop", "b", 0, .approve, none⟩,
       ⟨1, "prop", "c", 0, .approve, none⟩, ⟨1, "prop", "d", 0, .reject, none⟩]
      ⟨"prop"⟩ "majority" rfl
    cases hok : (isApproved
        ⟨[⟨"p1", none, none⟩, ⟨"p2", none, none⟩, ⟨"p3", none, none⟩], some ⟨"prop"⟩⟩
        [⟨1, "prop", "a", 0, .approve, none⟩, ⟨1, "prop", "b", 0, .approve, none⟩,
         ⟨1, "prop", "c", 0, .approve, none⟩, ⟨1, "prop", "d", 0, .reject, none⟩]
        "majority").ok
    · rfl
    · exact absurd (h.mp hok).1 (by decide)
  · exact (c7_reject_veto_and_majority
      ⟨[⟨"p1", none, none⟩, ⟨"p2", none, none⟩, ⟨"p3", none, none⟩], some ⟨"prop"⟩⟩
      [⟨1, "prop", "a", 0, .approve, none⟩, ⟨1, "prop", "b", 0, .approve, none⟩,
       ⟨1, "prop", "c", 0, .approve, none⟩]
      ⟨"prop"⟩ "majority" rfl).mpr (by decide)

theorem isSetOrMerge_not_lww (p : Patch) (h : p.isSetOrMerge = true) : canLww p = false := by
  cases p <;> simp_all [Patch.isSetOrMerge, canLww]

/-- C1: an op whose patch is `Set` or `Merge` and whose `baseVersion` is
stale is rejected — the sender gets a `VERSION_MISMATCH` conflict with
`applied = false` followed by a fresh snapshot, nothing is broadcast, and
the document's state and version are unchanged; a stale `PathSet` op under
the `lww_pathset` policy is applied (state updated, version bumped) and the
sender additionally gets an `LWW_PATHSET_APPLIED` conflict notice with
`applied = true` after the ack. -/
theorem c1_strict_reject_lww_applies (doc : DocState) (senderId : String)
    (clients : List ClientCtx) (m : OpMsg) (hopid : m.opId ≠ "")
    (hstale : m.baseVersion ≠ doc.version) :
    (m.patch.isSetOrMerge = true →
      handleOp doc senderId clients m =
        ⟨doc, [.conflict doc.docId m.opId false "VERSION_MISMATCH" doc.version,
               .snapshot doc.docId doc.version doc.state], []⟩) ∧
    (canLww m.patch = true →
      (handleOp doc senderId clients m).doc =
          ⟨doc.docId, doc.version + 1, applyPatch doc.state m.patch⟩ ∧
      (handleOp doc senderId clients m).toSender =
        [.ack doc.docId m.opId (doc.version + 1),
         .conflict doc.docId m.opId true "LWW_PATHSET_APPLIED" (doc.version + 1)]) := by
  constructor
  · intro hsm
    have hlww := isSetOrMerge_not_lww m.patch hsm
    rw [handleOp, if_neg hopid, if_pos ⟨hlww, hstale⟩]
  · intro hlww
    have hcond : ¬ (canLww m.patch = false ∧ m.baseVersion ≠ doc.version) := by
      rintro ⟨hf, -⟩; rw [hlww] at hf; exact absurd hf (by decide)
    rw [handleOp, if_neg hopid, if_neg hcond]
    refine ⟨rfl, ?_⟩
    have hnotice : m.baseVersion ≠ doc.version + 1 - 1 := by omega
    dsimp only
    rw [if_pos (show canLww m.patch = true ∧ m.baseVersion ≠ doc.version + 1 - 1 from
      ⟨hlww, hnotice⟩)]
    rfl

/-- Witness for C1: a stale `Set` op is rejected without touching the
document; a stale default-policy `PathSet` op is applied with the
informational conflict notice. -/
theorem c1_witness :
    (handleOp ⟨"d", 3, .obj []⟩ "c1" [⟨"c2", some "d"⟩] ⟨"op1", 2, .set (.num 5)⟩ =
      ⟨⟨"d", 3, .obj []⟩,
       [.conflict "d" "op1" false "VERSION_MISMATCH" 3, .snapshot "d" 3 (.obj [])], []⟩) ∧
    ((handleOp ⟨"d", 3, .obj []⟩ "c1" [⟨"c2", some "d"⟩]
        ⟨"op1", 1, .pathset [⟨"a.b", .num 7⟩] none⟩).doc =
      ⟨"d", 4, applyPatch (.obj []) (.pathset [⟨"a.b", .num 7⟩] none)⟩ ∧
     (handleOp ⟨"d", 3, .obj []⟩ "c1" [⟨"c2", some "d"⟩]
        ⟨"op1", 1, .pathset [⟨"a.b", .num 7⟩] none⟩).toSender =
      [.ack "d" "op1" 4, .conflict "d" "op1" true "LWW_PATHSET_APPLIED" 4]) := by
  constructor
  · exact (c1_strict_reject_lww_applies ⟨"d", 3, .obj []⟩ "c1" [⟨"c2", some "d"⟩]
      ⟨"op1", 2, .set (.num 5)⟩ (by decide) (by decide)).1 (by decide)
  · exact (c1_strict_reject_lww_applies ⟨"d", 3, .obj []⟩ "c1" [⟨"c2", some "d"⟩]
      ⟨"op1", 1, .pathset [⟨"a.b", .num 7⟩] none⟩ (by decide) (by decide)).2 (by decide)

/-- C8: a successfully applied op (one that passes the concurrency gate)
bumps the document version by exactly one, acknowledges the sender first
with that op's id and the new version, and broadcasts the op to exactly the
other clients subscribed to the same document with `baseVersion` equal to
`newVersion - 1`; moreover no op ever decreases the version. -/
theorem c8_success_ack_broadcast (doc : DocState) (senderId : String)
    (clients : List ClientCtx) (m m2 : OpMsg) (hopid : m.opId ≠ "")
    (happly : canLww m.patch = true ∨ m.baseVersion = doc.version) :
    (handleOp doc senderId clients m).doc.version = doc.version + 1 ∧
    (handleOp doc senderId clients m).toSender.head? =
      some (.ack doc.docId m.opId (doc.version + 1)) ∧
    (handleOp doc senderId clients m).toOthers =
      (clients.filter (fun c => c.clientId != senderId && c.docId == some doc.docId)).map
        (fun c => (c.clientId, SrvMsg.op doc.docId (doc.version + 1 - 1) m.opId m.patch)) ∧
    doc.version ≤ (handleOp doc senderId clients m2).doc.version := by
  have hcond : ¬ (canLww m.patch = false ∧ m.baseVersion ≠ doc.version) := by
    rintro ⟨hf, hne⟩
    rcases happly with h | h
    · rw [h] at hf; exact absurd hf (by decide)
    · exact hne h
  refine ⟨?_, ?_, ?_, ?_⟩
  · rw [handleOp, if_neg hopid, if_neg hcond]
  · rw [handleOp, if_neg hopid, if_neg hcond]
    simp only [List.cons_append, List.head?_cons]
  · rw [handleOp, if_neg hopid, if_neg hcond]
  · rw [handleOp]
    by_cases h1 : m2.opId = ""
    · rw [if_pos h1]
    · rw [if_neg h1]
      by_cases h2 : canLww m2.patch = false ∧ m2.baseVersion ≠ doc.version
      · rw [if_pos h2]
      · rw [if_neg h2]; dsimp only; omega

/-- Witness for C8 at a concrete applied op with two subscribed clients and
one client on another document. -/
theorem c8_witness :
    (handleOp ⟨"d", 3, .obj []⟩ "c1"
        [⟨"c2", some "d"⟩, ⟨"c3", some "e"⟩, ⟨"c4", some "d"⟩, ⟨"c1", some "d"⟩]
        ⟨"opA", 3, .set (.num 9)⟩).doc.version = 3 + 1 ∧
    (handleOp ⟨"d", 3, .obj []⟩ "c1"
        [⟨"c2", some "d"⟩, ⟨"c3", some "e"⟩, ⟨"c4", some "d"⟩, ⟨"c1", some "d"⟩]
        ⟨"opA", 3, .set (.num 9)⟩).toSender.head? = some (.ack "d" "opA" (3 + 1)) ∧
    (handleOp ⟨"d", 3, .obj []⟩ "c1"
        [⟨"c2", some "d"⟩, ⟨"c3", some "e"⟩, ⟨"c4", some "d"⟩, ⟨"c1", some "d"⟩]
        ⟨"opA", 3, .set (.num 9)⟩).toOthers =
      ([⟨"c2", some "d"⟩, ⟨"c3", some "e"⟩, ⟨"c4", some "d"⟩, ⟨"c1", some "d"⟩].filter
          (fun c : ClientCtx => c.clientId != "c1" && c.docId == some "d")).map
        (fun c => (c.clientId, SrvMsg.op "d" (3 + 1 - 1) "opA" (.set (.num 9)))) ∧
    (3 : Nat) ≤ (handleOp ⟨"d", 3, .obj []⟩ "c1"
        [⟨"c2", some "d"⟩, ⟨"c3", some "e"⟩, ⟨"c4", some "d"⟩, ⟨"c1", some "d"⟩]
        ⟨"opB", 0, .merge (.num 1)⟩).doc.version :=
  c8_success_ack_broadcast ⟨"d", 3, .obj []⟩ "c1"
    [⟨"c2", some "d"⟩, ⟨"c3", some "e"⟩, ⟨"c4", some "d"⟩, ⟨"c1", some "d"⟩]
    ⟨"opA", 3, .set (.num 9)⟩ ⟨"opB", 0, .merge (.num 1)⟩ (by decide) (Or.inr rfl)

theorem handleOp_self_base (doc : DocState) (senderId : String)
    (clients : List ClientCtx) (p : Patch) :
    (handleOp doc senderId clients ⟨"op", doc.version, p⟩).doc =
      ⟨doc.docId, doc.version + 1, applyPatch doc.state p⟩ := by
  have hcond : ¬ (canLww (⟨"op", doc.version, p⟩ : OpMsg).patch = false ∧
      (⟨"op", doc.version, p⟩ : OpMsg).baseVersion ≠ doc.version) := by
    rintro ⟨-, hne⟩; exact hne rfl
  rw [handleOp, if_neg (by decide : ¬ ("op" : String) = ""), if_neg hcond]

theorem replaySeq_fold (patches : List Patch) :
    ∀ d : DocState,
      patches.foldl (fun d p => (handleOp d "sender" [] ⟨"op", d.version, p⟩).doc) d =
        ⟨d.docId, d.version + patches.length, patches.foldl applyPatch d.state⟩ := by
  induction patches with
  | nil => intro d; simp
  | cons p rest ih =>
    intro d
    rw [List.foldl_cons, handleOp_self_base d "sender" [] p,
      ih ⟨d.docId, d.version + 1, applyPatch d.state p⟩]
    simp only [List.length_cons, List.foldl_cons]
    congr 1
    omega

/-- C6: the replica is deterministic — replaying a patch sequence with
consecutive base versions 0, 1, 2, ... on a fresh replica applies every
patch, the final version is the sequence length, the final state is a pure
fold of `applyPatch` over the sequence (independent even of the document
id), and hence any two replays of the same sequence agree on the canonical
state hash. -/
theorem c6_replay_deterministic (docId1 docId2 : String) (patches : List Patch)
    (H : String → String) :
    (replaySeq docId1 patches).version = patches.length ∧
    (replaySeq docId1 patches).state = patches.foldl applyPatch (.obj []) ∧
    (replaySeq docId1 patches).state = (replaySeq docId2 patches).state ∧
    H (canonicalJSONStringify (replaySeq docId1 patches).state) =
      H (canonicalJSONStringify (replaySeq docId2 patches).state) := by
  have h1 := replaySeq_fold patches (freshDoc docId1)
  have h2 := replaySeq_fold patches (freshDoc docId2)
  rw [replaySeq, h1]
  rw [replaySeq, h2]
  refine ⟨by simp [freshDoc], by simp [freshDoc], by simp [freshDoc], by simp [freshDoc]⟩

theorem foldl_components_fixed {ι : Type} (l : List ι)
    (f : (List DiffItem × Option String × Bool) → ι → (List DiffItem × Option String × Bool)) :
    ∀ st, (∀ st2 i, i ∈ l → ((f st2 i).1 = st2.1 ∧ (f st2 i).2.1 = st2.2.1)) →
      ((l.foldl f st).1 = st.1 ∧ (l.foldl f st).2.1 = st.2.1) := by
  induction l with
  | nil => intro st _; exact ⟨rfl, rfl⟩
  | cons i rest ih =>
    intro st hf
    have h1 := hf st i (by simp)
    have h2 := ih (f st i) (fun st2 j hj => hf st2 j (by simp [hj]))
    simp only [List.foldl_cons]
    exact ⟨h2.1.trans h1.1, h2.2.trans h1.2⟩

theorem foldl_components_fixed_pair {ι : Type} (l : List ι)
    (f : (List DiffItem × Option String × Bool) → ι → (List DiffItem × Option String × Bool))
    (st : List DiffItem × Option String × Bool)
    (hf : ∀ st2 i, i ∈ l → ((f st2 i).1 = st2.1 ∧ (f st2 i).2.1 = st2.2.1)) :
    ((l.foldl f st).1, (l.foldl f st).2.1) = (st.1, st.2.1) := by
  obtain ⟨h1, h2⟩ := foldl_components_fixed l f st hf
  rw [h1, h2]

theorem lookupKey_isSome_of_mem (k : String) (lm : List (String × Json))
    (h : k ∈ lm.map Prod.fst) : ∃ v, lookupKey k lm = some v := by
  induction lm with
  | nil => simp at h
  | cons p rest ih =>
    obtain ⟨k2, v2⟩ := p
    by_cases hk : k2 = k
    · exact ⟨v2, by simp [lookupKey, hk]⟩
    · have hmem : k ∈ rest.map Prod.fst := by
        simp only [List.map_cons, List.mem_cons] at h
        rcases h with h | h
        · exact absurd h.symm hk
        · exact h
      obtain ⟨v, hv⟩ := ih hmem
      exact ⟨v, by simp [lookupKey, hk, hv]⟩

theorem mem_insertSortedStr (a k : String) (l : List String) :
    a ∈ insertSortedStr k l → a = k ∨ a ∈ l := by
  induction l with
  | nil => intro h; simp [insertSortedStr] at h; exact Or.inl h
  | cons k2 rest ih =>
    intro h
    by_cases hlt : strLt k k2 = true
    · simp [insertSortedStr, hlt] at h
      rcases h with h | h | h
      · exact Or.inl h
      · exact Or.inr (by simp [h])
      · exact Or.inr (by simp [h])
    · simp [insertSortedStr, hlt] at h
      rcases h with h | h
      · exact Or.inr (by simp [h])
      · rcases ih h with h2 | h2
        · exact Or.inl h2
        · exact Or.inr (by simp [h2])

theorem mem_sortStrs (a : String) (l : List String) : a ∈ sortStrs l → a ∈ l := by
  induction l with
  | nil => intro h; simp [sortStrs] at h
  | cons k rest ih =>
    intro h
    rcases mem_insertSortedStr a k (sortStrs rest) h with h2 | h2
    · simp [h2]
    · simp [ih h2]

theorem mem_dedupKeys_aux (a : String) :
    ∀ (ks acc : List String),
      a ∈ ks.foldl (fun acc k => if acc.contains k then acc else acc ++ [k]) acc →
      a ∈ acc ∨ a ∈ ks := by
  intro ks
  induction ks with
  | nil => intro acc h; exact Or.inl h
  | cons k rest ih =>
    intro acc h
    simp only [List.foldl_cons] at h
    by_cases hc : acc.contains k = true
    · rw [if_pos hc] at h
      rcases ih acc h with h2 | h2
      · exact Or.inl h2
      · exact Or.inr (by simp [h2])
    · rw [if_neg hc] at h
      rcases ih (acc ++ [k]) h with h2 | h2
      · rcases (List.mem_append).mp h2 with h3 | h3
        · exact Or.inl h3
        · simp only [List.mem_singleton] at h3
          exact Or.inr (by simp [h3])
      · exact Or.inr (by simp [h2])

theorem mem_sortedKeyUnion (a : String) (lm rm : List (String × Json)) :
    a ∈ sortedKeyUnion lm rm → a ∈ lm.map Prod.fst ∨ a ∈ rm.map Prod.fst := by
  intro h
  have h2 := mem_sortStrs a _ h
  rcases mem_dedupKeys_aux a _ [] h2 with h3 | h3
  · simp at h3
  · exact (List.mem_append).mp h3

theorem jsStrictEq_arr (xs ys : List Json) : jsStrictEq (.arr xs) (.arr ys) = false := rfl

theorem jsStrictEq_obj (xs ys : List (String × Json)) :
    jsStrictEq (.obj xs) (.obj ys) = false := rfl

theorem deepDiffF_self : ∀ (fuel : Nat) (j : Json) (basePath : String)
    (out : List DiffItem) (first : Option String) (opts : DivergenceReportOptions),
    deepDiffF fuel j j basePath out first opts = (out, first) := by
  intro fuel
  induction fuel with
  | zero => intro j bp out first opts; rfl
  | succ fuel ih =>
    intro j bp out first opts
    cases j with
    | null => simp [deepDiffF, jsStrictEq]
    | bool b => simp [deepDiffF, jsStrictEq]
    | num n => simp [deepDiffF, jsStrictEq]
    | str s => simp [deepDiffF, jsStrictEq]
    | arr xs =>
      by_cases hfull : out.length ≥ opts.maxDiffs
      · simp [deepDiffF, hfull]
      · rw [show deepDiffF (fuel + 1) (.arr xs) (.arr xs) bp out first opts =
            (((List.range (max xs.length xs.length)).foldl (fun st i =>
              if st.2.2 then st
              else if st.1.length ≥ opts.maxDiffs then (st.1, st.2.1, true)
              else
                match xs.get? i, xs.get? i with
                | none, some r =>
                  let p := pathJoinIdx bp i
                  (pushDiff st.1 ⟨p, none, some r, .missing_local⟩ opts,
                   if st.2.1.isNone then some p else st.2.1, false)
                | some l, none =>
                  let p := pathJoinIdx bp i
                  (pushDiff st.1 ⟨p, some l, none, .missing_ref⟩ opts,
                   if st.2.1.isNone then some p else st.2.1, false)
                | some l, some r =>
                  let d := deepDiffF fuel l r (pathJoinIdx bp i) st.1 st.2.1 opts
                  (d.1, d.2, d.2.isSome && decide (d.1.length ≥ opts.maxDiffs))
                | none, none => st)
              ((out, first, false) : List DiffItem × Option String × Bool)).1,
             ((List.range (max xs.length xs.length)).foldl (fun st i =>
              if st.2.2 then st
              else if st.1.length ≥ opts.maxDiffs then (st.1, st.2.1, true)
              else
                match xs.get? i, xs.get? i with
                | none, some r =>
                  let p := pathJoinIdx bp i
                  (pushDiff st.1 ⟨p, none, some r, .missing_local⟩ opts,
                   if st.2.1.isNone then some p else st.2.1, false)
                | some l, none =>
                  let p := pathJoinIdx bp i
                  (pushDiff st.1 ⟨p, some l, none, .missing_ref⟩ opts,
                   if st.2.1.isNone then some p else st.2.1, false)
                | some l, some r =>
                  let d := deepDiffF fuel l r (pathJoinIdx bp i) st.1 st.2.1 opts
                  (d.1, d.2, d.2.isSome && decide (d.1.length ≥ opts.maxDiffs))
                | none, none => st)
              ((out, first, false) : List DiffItem × Option String × Bool)).2.1) from by
          rw [deepDiffF, if_neg hfull, if_neg (by simp [jsStrictEq_arr]),
            if_neg (by simp [typeTag]), if_neg (by simp [typeofJs])]]
        apply foldl_components_fixed_pair
        intro st2 i hi
        have hilt : i < xs.length := by
          have := List.mem_range.mp hi
          simpa using this
        obtain ⟨o2, f2, b2⟩ := st2
        cases b2
        · by_cases h2 : o2.length ≥ opts.maxDiffs
          · simp only [show (((o2, f2, false) :
              List DiffItem × Option String × Bool)).2.2 = false from rfl]
            simp [h2]
          · simp only [show (((o2, f2, false) :
              List DiffItem × Option String × Bool)).2.2 = false from rfl]
            simp only [Bool.false_eq_true, if_false, if_neg h2]
            rw [List.get?_eq_get hilt]
            dsimp only
            rw [ih]
            exact ⟨rfl, rfl⟩
        · simp
    | obj kvs =>
      by_cases hfull : out.length ≥ opts.maxDiffs
      · simp [deepDiffF, hfull]
      · rw [show deepDiffF (fuel + 1) (.obj kvs) (.obj kvs) bp out first opts =
            (((sortedKeyUnion kvs kvs).foldl (fun st k =>
              if st.2.2 then st
              else if st.1.length ≥ opts.maxDiffs then (st.1, st.2.1, true)
              else
                let p := pathJoinKey bp k
                match lookupKey k kvs, lookupKey k kvs with
                | none, some rv2 =>
                  (pushDiff st.1 ⟨p, none, some rv2, .missing_local⟩ opts,
                   if st.2.1.isNone then some p else st.2.1, false)
                | some lv2, none =>
                  (pushDiff st.1 ⟨p, some lv2, none, .missing_ref⟩ opts,
                   if st.2.1.isNone then some p else st.2.1, false)
                | some lv2, some rv2 =>
                  let d := deepDiffF fuel lv2 rv2 p st.1 st.2.1 opts
                  (d.1, d.2, false)
                | none, none => st)
              ((out, first, false) : List DiffItem × Option String × Bool)).1,
             ((sortedKeyUnion kvs kvs).foldl (fun st k =>
              if st.2.2 then st
              else if st.1.length ≥ opts.maxDiffs then (st.1, st.2.1, true)
              else
                let p := pathJoinKey bp k
                match lookupKey k kvs, lookupKey k kvs with
                | none, some rv2 =>
                  (pushDiff st.1 ⟨p, none, some rv2, .missing_local⟩ opts,
                   if st.2.1.isNone then some p else st.2.1, false)
                | some lv2, none =>
                  (pushDiff st.1 ⟨p, some lv2, none, .missing_ref⟩ opts,
                   if st.2.1.isNone then some p else st.2.1, false)
                | some lv2, some rv2 =>
                  let d := deepDiffF fuel lv2 rv2 p st.1 st.2.1 opts
                  (d.1, d.2, false)
                | none, none => st)
              ((out, first, false) : List DiffItem × Option String × Bool)).2.1) from by
          rw [deepDiffF, if_neg hfull, if_neg (by simp [jsStrictEq_obj]),
            if_neg (by simp [typeTag]), if_neg (by simp [typeofJs])]]
        apply foldl_components_fixed_pair
        intro st2 k hk
        obtain ⟨o2, f2, b2⟩ := st2
        cases b2
        · by_cases h2 : o2.length ≥ opts.maxDiffs
          · simp only [show (((o2, f2, false) :
              List DiffItem × Option String × Bool)).2.2 = false from rfl]
            simp [h2]
          · have hmem : k ∈ kvs.map Prod.fst := by
              rcases mem_sortedKeyUnion k kvs kvs hk with h | h <;> exact h
            obtain ⟨v, hv⟩ := lookupKey_isSome_of_mem k kvs hmem
            simp only [show (((o2, f2, false) :
              List DiffItem × Option String × Bool)).2.2 = false from rfl]
            simp only [Bool.false_eq_true, if_false, if_neg h2, hv]
            rw [ih]
            exact ⟨rfl, rfl⟩
        · simp

/-- C5: the divergence report on `a.b : 1` versus `a.b : 2` is not ok, marks
`a.b` as the first mismatch, and collects exactly one value diff; on
identical trees the report is ok with no diffs; and in general the report is
ok iff the collected diff list is empty. -/
theorem c5_deep_diff_report (H : String → String) :
    (firstDivergenceReport H (.obj [("a", .obj [("b", .num 1)])])
        (.obj [("a", .obj [("b", .num 2)])]) divergenceDefaults).ok = false ∧
    (firstDivergenceReport H (.obj [("a", .obj [("b", .num 1)])])
        (.obj [("a", .obj [("b", .num 2)])]) divergenceDefaults).firstMismatchPath
      = some "a.b" ∧
    (firstDivergenceReport H (.obj [("a", .obj [("b", .num 1)])])
        (.obj [("a", .obj [("b", .num 2)])]) divergenceDefaults).diffs
      = [⟨"a.b", some (.num 1), some (.num 2), .value⟩] ∧
    (∀ (j : Json) (opts : DivergenceReportOptions),
      (firstDivergenceReport H j j opts).ok = true ∧
      (firstDivergenceReport H j j opts).diffs = []) ∧
    (∀ (l r : Json) (opts : DivergenceReportOptions),
      (firstDivergenceReport H l r opts).ok = true ↔
      (firstDivergenceReport H l r opts).diffs = []) := by
  refine ⟨rfl, rfl, rfl, ?_, ?_⟩
  · intro j opts
    rw [firstDivergenceReport]
    dsimp only
    rw [deepDiffF_self]
    exact ⟨rfl, rfl⟩
  · intro l r opts
    rw [firstDivergenceReport]
    dsimp only
    simp only [beq_iff_eq, List.length_eq_zero]

theorem cleanup_fresh_single (tag : String) (pol : ConflictPolicy) (id : String)
    (it : ConflictItem) (t : Nat) (hup : it.updatedAtMs = t) (hmax : 1 ≤ pol.maxItems) :
    ConflictStore.cleanup ⟨tag, pol, [(id, it)], [id]⟩ t = ⟨tag, pol, [(id, it)], [id]⟩ := by
  rw [ConflictStore.cleanup]
  simp [lookupItem, hup, Nat.sub_self]
  omega

theorem add_on_fresh_store (H : String → String) (tag : String) (pol : ConflictPolicy)
    (input : ConflictAddInput) (t : Nat) (hmax : 1 ≤ pol.maxItems) :
    ConflictStore.add H (ConflictStore.init tag pol) input t =
      (⟨tag, pol,
        [(makeConflictId H tag input.kind input.severity input.sourcePeer
            input.related input.payload,
          ⟨1, makeConflictId H tag input.kind input.severity input.sourcePeer
                input.related input.payload, t, t, tag, input.severity, input.kind,
            (if pol.autoAck.enabled && pol.autoAck.severities.contains input.severity
                && pol.autoAck.kinds.contains input.kind then .acked else .opened),
            input.sourcePeer, input.title, input.detail, input.payload, input.related,
            input.recommendedAction.getD "none"⟩)],
        [makeConflictId H tag input.kind input.severity input.sourcePeer
            input.related input.payload]⟩,
       ⟨1, makeConflictId H tag input.kind input.severity input.sourcePeer
             input.related input.payload, t, t, tag, input.severity, input.kind,
         (if pol.autoAck.enabled && pol.autoAck.severities.contains input.severity
             && pol.autoAck.kinds.contains input.kind then .acked else .opened),
         input.sourcePeer, input.title, input.detail, input.payload, input.related,
         input.recommendedAction.getD "none"⟩) := by
  rw [ConflictStore.add]
  simp only [ConflictStore.init, lookupItem, List.find?_nil, Option.map_none', setItem,
    List.nil_append]
  rw [cleanup_fresh_single tag pol _ _ t rfl hmax]

theorem setStatus_on_single (tag : String) (pol : ConflictPolicy) (id : String)
    (it : ConflictItem) (st : ConflictStatus) (t : Nat) (hmax : 1 ≤ pol.maxItems) :
    ConflictStore.setStatus ⟨tag, pol, [(id, it)], [id]⟩ id st t =
      (⟨tag, pol, [(id, { it with status := st, updatedAtMs := t })], [id]⟩, true) := by
  rw [ConflictStore.setStatus]
  simp only [lookupItem, List.find?_cons, beq_self_eq_true, Option.map_some', setItem,
    if_pos rfl, if_true, eq_self_iff_true]
  rw [cleanup_fresh_single tag pol _ _ t rfl hmax]

theorem add_on_single (H : String → String) (tag : String) (pol : ConflictPolicy)
    (id : String) (it : ConflictItem) (input : ConflictAddInput) (t : Nat)
    (hid : makeConflictId H tag input.kind input.severity input.sourcePeer
        input.related input.payload = id)
    (hmax : 1 ≤ pol.maxItems) :
    ConflictStore.add H ⟨tag, pol, [(id, it)], [id]⟩ input t =
      (⟨tag, pol,
        [(id, { it with
                  updatedAtMs := t, title := input.title,
                  detail := input.detail <|> it.detail,
                  payload := input.payload <|> it.payload,
                  related := some (mergeRelated it.related input.related),
                  recommendedAction := input.recommendedAction.getD it.recommendedAction,
                  severity := escalateSeverity it.severity input.severity })], [id]⟩,
       { it with
           updatedAtMs := t, title := input.title,
           detail := input.detail <|> it.detail,
           payload := input.payload <|> it.payload,
           related := some (mergeRelated it.related input.related),
           recommendedAction := input.recommendedAction.getD it.recommendedAction,
           severity := escalateSeverity it.severity input.severity }) := by
  rw [ConflictStore.add, hid]
  simp only [lookupItem, List.find?_cons, beq_self_eq_true, Option.map_some', setItem,
    if_pos rfl, if_true, eq_self_iff_true]
  rw [cleanup_fresh_single tag pol _ _ t rfl hmax]

theorem escalateSeverity_self (a : ConflictSeverity) : escalateSeverity a a = a := by
  simp [escalateSeverity]

theorem orElse_self_opt {α : Type} (x : Option α) : (x <|> x) = x := by
  cases x <;> rfl

/-- C2 (amended): two `add` calls with identical dedup-key fields (kind,
severity, sourcePeer, related, payload) at different timestamps — with any
operator status change in between — leave exactly one record under the
deterministic content-hash id; the second call escalates severity to the
maximum (identical severities stay put), overwrites the title, overwrites
detail and payload only when the newer occurrence provides them (otherwise
the older value is retained — this is where the original claim was too
strong), shallow-merges `related`, and keeps the record's status, so a
resolved or ignored record is not silently reopened. -/
theorem c2_amended_dedup_merge (H : String → String) (tag : String)
    (pol : ConflictPolicy) (in1 in2 : ConflictAddInput) (t1 t2 t3 : Nat)
    (st : ConflictStatus)
    (hkind : in1.kind = in2.kind) (hsev : in1.severity = in2.severity)
    (hpeer : in1.sourcePeer = in2.sourcePeer) (hrel : in1.related = in2.related)
    (hpay : in1.payload = in2.payload) (hmax : 1 ≤ pol.maxItems) :
    (let r1 := ConflictStore.add H (ConflictStore.init tag pol) in1 t1
     let smid := (ConflictStore.setStatus r1.1 r1.2.id st t2).1
     let r2 := ConflictStore.add H smid in2 t3
     countId r2.1 (makeConflictId H tag in2.kind in2.severity in2.sourcePeer
        in2.related in2.payload) = 1 ∧
     lookupItem r2.1.items r2.2.id = some r2.2 ∧
     r2.2.severity = escalateSeverity in1.severity in2.severity ∧
     r2.2.severity = in2.severity ∧
     r2.2.title = in2.title ∧
     r2.2.detail = (in2.detail <|> in1.detail) ∧
     r2.2.payload = in2.payload ∧
     r2.2.related = some (mergeRelated in1.related in2.related) ∧
     r2.2.status = st) := by
  have hid : makeConflictId H tag in2.kind in2.severity in2.sourcePeer
      in2.related in2.payload
      = makeConflictId H tag in1.kind in1.severity in1.sourcePeer
          in1.related in1.payload := by
    rw [hkind, hsev, hpeer, hrel, hpay]
  rw [add_on_fresh_store H tag pol in1 t1 hmax]
  dsimp only
  rw [setStatus_on_single tag pol _ _ st t2 hmax]
  dsimp only
  rw [add_on_single H tag pol _ _ in2 t3 hid hmax]
  dsimp only
  refine ⟨?_, ?_, rfl, ?_, rfl, rfl, ?_, rfl, rfl⟩
  · rw [countId, hid]
    simp
  · simp [lookupItem]
  · rw [← hsev, escalateSeverity_self]
  · rw [hpay, orElse_self_opt]

set_option maxRecDepth 10000

/-- Counterexample to C2 as stated: when the second occurrence provides no
`detail`, the merged record keeps the first occurrence's detail instead of
being overwritten by the newer (absent) one. -/
theorem c2_counterexample_detail_kept :
    ((ConflictStore.add id
        (ConflictStore.add id (ConflictStore.init "tag" defaultConflictPolicy)
          ⟨.warn, .unknown, "first", some "d", none, none, none, none⟩ 0).1
        ⟨.warn, .unknown, "second", none, none, none, none, none⟩ 1).2).detail
      = some "d" ∧
    ((ConflictStore.add id
        (ConflictStore.add id (ConflictStore.init "tag" defaultConflictPolicy)
          ⟨.warn, .unknown, "first", some "d", none, none, none, none⟩ 0).1
        ⟨.warn, .unknown, "second", none, none, none, none, none⟩ 1).2).detail
      ≠ none := by
  constructor
  · decide
  · decide

/-- Witness for the amended C2 at a concrete pair of conflicting inputs and
an intervening `resolved` status change. -/
theorem c2_witness :
    (let r1 := ConflictStore.add id (ConflictStore.init "tag" defaultConflictPolicy)
        ⟨.warn, .unknown, "first", some "d", none, none, none, none⟩ 0
     let smid := (ConflictStore.setStatus r1.1 r1.2.id .resolved 1).1
     let r2 := ConflictStore.add id smid
        ⟨.warn, .unknown, "second", some "d2", none, none, none, none⟩ 2
     countId r2.1 (makeConflictId id "tag" ConflictKind.unknown ConflictSeverity.warn
        none none none) = 1 ∧
     lookupItem r2.1.items r2.2.id = some r2.2 ∧
     r2.2.severity = escalateSeverity ConflictSeverity.warn ConflictSeverity.warn ∧
     r2.2.severity = ConflictSeverity.warn ∧
     r2.2.title = "second" ∧
     r2.2.detail = (some "d2" <|> some "d") ∧
     r2.2.payload = none ∧
     r2.2.related = some (mergeRelated none none) ∧
     r2.2.status = ConflictStatus.resolved) :=
  c2_amended_dedup_merge id "tag" defaultConflictPolicy
    ⟨.warn, .unknown, "first", some "d", none, none, none, none⟩
    ⟨.warn, .unknown, "second", some "d2", none, none, none, none⟩
    0 1 2 .resolved rfl rfl rfl rfl rfl (by decide)

theorem hPrefix_ne (s : String) : ("h" ++ s) ≠ "" := by
  intro h
  have := congrArg String.data h
  simp [String.data_append] at this

theorem hPrefix_inj : Function.Injective (fun s : String => "h" ++ s) := by
  intro a b hab
  have := congrArg String.data hab
  simp [String.data_append] at this
  exact congrArg String.mk this

theorem canonical_payload_ne (e : AuditEvent) (i : Nat) (q q' : Json)
    (hq : e.payload = some q) (hqq : q ≠ q') :
    canonicalLineForHash e i ≠ canonicalLineForHash { e with payload := some q' } i := by
  intro h
  have h2 := Json.stringify_inj h
  simp [hq] at h2
  exact hqq h2

theorem verifyFrom_payload_mutation (H : String → String)
    (hinj : Function.Injective H) (hne : ∀ s, H s ≠ "")
    (e : AuditEvent) (suf : List AuditEvent) (q q' : Json)
    (hq : e.payload = some q) (hqq : q ≠ q') (hhash : strTruthy e.hash = true) :
    ∀ (pre : List AuditEvent) (i : Nat) (prev : String),
      (verifyFrom H (pre ++ e :: suf) i prev).ok = true →
      verifyFrom H (pre ++ { e with payload := some q' } :: suf) i prev
        = ⟨false, i + pre.length + 1, some (i + pre.length), some "hash mismatch"⟩ := by
  intro pre
  induction pre with
  | nil =>
    intro i prev hok
    simp only [List.nil_append, List.length_nil, Nat.add_zero] at hok ⊢
    rw [verifyFrom] at hok ⊢
    have hh1 : ¬ (strTruthy e.hash = false) := by simp [hhash]
    rw [if_neg hh1] at hok
    rw [if_neg (show ¬ (strTruthy ({ e with payload := some q' } : AuditEvent).hash = false) from hh1)]
    by_cases h2 : strTruthy e.prevHash = true ∧ e.prevHash ≠ some prev
    · rw [if_pos h2] at hok
      simp at hok
    · rw [if_neg h2] at hok
      rw [if_neg (show ¬ (strTruthy ({ e with payload := some q' } : AuditEvent).prevHash = true ∧
            ({ e with payload := some q' } : AuditEvent).prevHash ≠ some prev) from h2)]
      dsimp only at hok ⊢
      by_cases h3 : H (canonicalLineForHash e i) ≠ "" ∧ e.hash ≠ some (H (canonicalLineForHash e i))
      · rw [if_pos h3] at hok
        simp at hok
      · have hehash : e.hash = some (H (canonicalLineForHash e i)) := by
          by_contra hB
          exact h3 ⟨hne _, hB⟩
        rw [if_pos (show H (canonicalLineForHash ({ e with payload := some q' } : AuditEvent) i) ≠ "" ∧
              ({ e with payload := some q' } : AuditEvent).hash
                ≠ some (H (canonicalLineForHash ({ e with payload := some q' } : AuditEvent) i)) from
          ⟨hne _, by
            rw [show ({ e with payload := some q' } : AuditEvent).hash = e.hash from rfl, hehash]
            intro hcontra
            exact canonical_payload_ne e i q q' hq hqq (hinj (Option.some.inj hcontra))⟩)]
  | cons a pre ih =>
    intro i prev hok
    simp only [List.cons_append] at hok ⊢
    rw [verifyFrom] at hok ⊢
    by_cases h1 : strTruthy a.hash = false
    · rw [if_pos h1] at hok ⊢
      rw [ih _ _ hok]
      simp only [List.length_cons, HashChainResult.mk.injEq, Option.some.injEq, and_true, true_and]
      omega
    · rw [if_neg h1] at hok ⊢
      by_cases h2 : strTruthy a.prevHash = true ∧ a.prevHash ≠ some prev
      · rw [if_pos h2] at hok
        simp at hok
      · rw [if_neg h2] at hok ⊢
        dsimp only at hok ⊢
        by_cases h3 : H (canonicalLineForHash a i) ≠ "" ∧ a.hash ≠ some (H (canonicalLineForHash a i))
        · rw [if_pos h3] at hok
          simp at hok
        · rw [if_neg h3] at hok ⊢
          rw [ih _ _ hok]
          simp only [List.length_cons, HashChainResult.mk.injEq, Option.some.injEq, and_true, true_and]
          omega

/-- C3 (amended): on a chain that verifies, replacing the payload of an
event that actually carries a (truthy) hash with a different value makes
verification fail exactly at that event's index — never earlier — with
reason "hash mismatch"; the hash function is assumed injective with
nonempty hex output. The original claim is refuted for events recorded
with hashing disabled, which the verifier skips entirely. -/
theorem c3_amended_payload_mutation (H : String → String)
    (hinj : Function.Injective H) (hne : ∀ s, H s ≠ "")
    (pre : List AuditEvent) (e : AuditEvent) (suf : List AuditEvent) (q q' : Json)
    (hok : (verifyHashChain H (pre ++ e :: suf)).ok = true)
    (hhash : strTruthy e.hash = true)
    (hq : e.payload = some q) (hqq : q ≠ q') :
    verifyHashChain H (pre ++ { e with payload := some q' } :: suf)
      = ⟨false, pre.length + 1, some pre.length, some "hash mismatch"⟩ := by
  rw [verifyHashChain] at hok ⊢
  have h := verifyFrom_payload_mutation H hinj hne e suf q q' hq hqq hhash pre 0 "" hok
  simpa using h

/-- Counterexample to C3 as stated: a chain recorded with hashing disabled
verifies, and still verifies after its payload is mutated — no failure is
reported at the mutated index. -/
theorem c3_counterexample_hashless_chain :
    (verifyHashChain id
      [⟨1, "s", "c", 0, none, "t", true, none, none, none, some (.num 1), none, none⟩]).ok
      = true ∧
    (verifyHashChain id
      [⟨1, "s", "c", 0, none, "t", true, none, none, none, some (.num 2), none, none⟩]).ok
      = true ∧
    (verifyHashChain id
      [⟨1, "s", "c", 0, none, "t", true, none, none, none, some (.num 2), none, none⟩]).firstBadIndex
      = none := by
  refine ⟨?_, ?_, ?_⟩ <;> decide

/-- Witness for the amended C3 at a one-event hashed chain with the payload
mutated from 1 to 2, under the injective nonempty hash `"h" ++ ·`. -/
theorem c3_witness :
    verifyHashChain (fun s => "h" ++ s)
      [⟨1, "s", "c", 0, none, "t", true, none, none, none, some (.num 2), none,
        some ("h" ++ canonicalLineForHash
          ⟨1, "s", "c", 0, none, "t", true, none, none, none, some (.num 1), none, none⟩ 0)⟩]
      = ⟨false, 1, some 0, some "hash mismatch"⟩ :=
  c3_amended_payload_mutation (fun s => "h" ++ s) hPrefix_inj hPrefix_ne []
    ⟨1, "s", "c", 0, none, "t", true, none, none, none, some (.num 1), none,
      some ("h" ++ canonicalLineForHash
        ⟨1, "s", "c", 0, none, "t", true, none, none, none, some (.num 1), none, none⟩ 0)⟩
    [] (.num 1) (.num 2) (by decide) rfl rfl (by decide)

theorem bsearch_correct (pEq : Int → Bool) (k : Int) :
    ∀ (n : Nat) (lo hi first : Int), (hi + 1 - lo).toNat ≤ n →
      (∀ m, lo ≤ m → m ≤ hi → (pEq m = true ↔ m < k)) →
      lo ≤ k → k ≤ hi + 1 → (k = hi + 1 → first = k) →
      (bsearchDiverge pEq lo hi first).1 = k := by
  intro n
  induction n with
  | zero =>
    intro lo hi first hfuel hmono hlo hhi hfirst
    rw [bsearchDiverge.eq_def, dif_pos (show hi < lo by omega)]
    exact hfirst (by omega)
  | succ n ih =>
    intro lo hi first hfuel hmono hlo hhi hfirst
    rw [bsearchDiverge.eq_def]
    by_cases hcmp : hi < lo
    · rw [dif_pos hcmp]
      exact hfirst (by omega)
    · rw [dif_neg hcmp]
      dsimp only
      by_cases hp : pEq ((lo + hi) / 2) = true
      · rw [if_pos hp]
        have hk : (lo + hi) / 2 < k := (hmono _ (by omega) (by omega)).mp hp
        exact ih ((lo + hi) / 2 + 1) hi first (by omega)
          (fun m h1 h2 => hmono m (by omega) h2) (by omega) hhi hfirst
      · rw [if_neg hp]
        have hk : k ≤ (lo + hi) / 2 := by
          by_contra hc
          exact hp ((hmono _ (by omega) (by omega)).mpr (by omega))
        exact ih lo ((lo + hi) / 2 - 1) ((lo + hi) / 2) (by omega)
          (fun m h1 h2 => hmono m h1 (by omega)) hlo (by omega) (fun h => by omega)

theorem bsearch_calls_le (pEq : Int → Bool) :
    ∀ (n : Nat) (lo hi first : Int), (hi + 1 - lo).toNat ≤ 2 ^ n →
      (bsearchDiverge pEq lo hi first).2 ≤ 2 * (n + 1) := by
  intro n
  induction n with
  | zero =>
    intro lo hi first hfuel
    rw [bsearchDiverge.eq_def]
    by_cases hcmp : hi < lo
    · rw [dif_pos hcmp]
      simp
    · rw [dif_neg hcmp]
      dsimp only
      have hone : (2:Nat) ^ 0 = 1 := rfl
      have hhl : hi = lo := by omega
      by_cases hp : pEq ((lo + hi) / 2) = true
      · rw [if_pos hp, bsearchDiverge.eq_def, dif_pos (show hi < (lo + hi) / 2 + 1 by omega)]
      · rw [if_neg hp, bsearchDiverge.eq_def, dif_pos (show (lo + hi) / 2 - 1 < lo by omega)]
  | succ n ih =>
    intro lo hi first hfuel
    rw [bsearchDiverge.eq_def]
    by_cases hcmp : hi < lo
    · rw [dif_pos hcmp]
      simp
    · rw [dif_neg hcmp]
      dsimp only
      have hpow : (2:Nat) ^ (n + 1) = 2 ^ n * 2 := pow_succ 2 n
      by_cases hp : pEq ((lo + hi) / 2) = true
      · rw [if_pos hp]
        have h := ih ((lo + hi) / 2 + 1) hi first (by omega)
        dsimp only
        omega
      · rw [if_neg hp]
        have h := ih lo ((lo + hi) / 2 - 1) ((lo + hi) / 2) (by omega)
        dsimp only
        omega

/-- C4 (amended): when the two logs' replayed states agree on every prefix
shorter than `k` and their canonical serializations differ at every prefix
length from `k` up to the common length (so the divergence does not heal),
the locator returns `ok = false` with `firstIndex = k`, and the number of
`prefixHash` replays is logarithmic: at most `2*n + 8` when the common
length is at most `2^n`. The original claim required only a difference at
index `k`: if the two states re-converge afterwards, the end-hash pretest
reports no divergence at all, so the unconditional claim is false. -/
theorem c4_amended_locator (H : String → String) (hinj : Function.Injective H)
    (eventsA eventsB : List AuditEvent) (pfxList : List String) (k n : Nat)
    (hk1 : 1 ≤ k) (hk2 : k ≤ min eventsA.length eventsB.length)
    (heq : ∀ m : Nat, m < k →
      replayRoot (eventsA.take m) pfxList = replayRoot (eventsB.take m) pfxList)
    (hdiff : ∀ m : Nat, k ≤ m → m ≤ min eventsA.length eventsB.length →
      stableStringify (replayRoot (eventsA.take m) pfxList)
        ≠ stableStringify (replayRoot (eventsB.take m) pfxList))
    (hn : min eventsA.length eventsB.length ≤ 2 ^ n) :
    (findFirstDivergence H eventsA eventsB pfxList).1.ok = false ∧
    (findFirstDivergence H eventsA eventsB pfxList).1.firstIndex = some (k : Int) ∧
    (findFirstDivergence H eventsA eventsB pfxList).2 ≤ 2 * n + 8 := by
  have hend : prefixHash H eventsA (min eventsA.length eventsB.length) pfxList
      ≠ prefixHash H eventsB (min eventsA.length eventsB.length) pfxList := by
    intro hcontra
    exact hdiff _ hk2 le_rfl (hinj hcontra)
  rw [findFirstDivergence]
  dsimp only
  rw [if_neg hend]
  have hres := bsearch_correct
    (fun m : Int => prefixHash H eventsA m.toNat pfxList
        == prefixHash H eventsB m.toNat pfxList)
    (k : Int) (min eventsA.length eventsB.length) 1
    ((min eventsA.length eventsB.length : Nat) : Int)
    ((min eventsA.length eventsB.length : Nat) : Int)
    (by omega)
    (by
      intro m h1 h2
      simp only [beq_iff_eq]
      constructor
      · intro hhash
        by_contra hge
        exact hdiff m.toNat (by omega) (by omega) (hinj hhash)
      · intro hlt
        simp only [prefixHash]
        rw [heq m.toNat (by omega)])
    (by omega) (by omega) (by omega)
  have hcnt := bsearch_calls_le
    (fun m : Int => prefixHash H eventsA m.toNat pfxList
        == prefixHash H eventsB m.toNat pfxList)
    n 1 ((min eventsA.length eventsB.length : Nat) : Int)
    ((min eventsA.length eventsB.length : Nat) : Int)
    (by omega)
  refine ⟨rfl, ?_, ?_⟩
  · dsimp only
    rw [hres]
  · dsimp only
    omega

/-- Counterexample to C4 as stated: two logs whose replayed states differ at
prefix length 1 (and agree on the empty prefix) but re-converge afterwards;
the end-hash pretest sees equal final states, so the locator reports no
divergence at all instead of firstIndex 1. -/
theorem c4_counterexample_reconverging_logs :
    stableStringify (replayRoot (List.take 1
        [⟨1, "s", "c", 0, none, "crdt.set", true, none, none, none,
          some (.obj [("path", .str "x"), ("value", .num 1)]), none, none⟩,
         ⟨1, "s", "c", 1, none, "crdt.set", true, none, none, none,
          some (.obj [("path", .str "x"), ("value", .num 5)]), none, none⟩]) [])
      ≠ stableStringify (replayRoot (List.take 1
        [⟨1, "s", "c", 0, none, "crdt.set", true, none, none, none,
          some (.obj [("path", .str "x"), ("value", .num 2)]), none, none⟩,
         ⟨1, "s", "c", 1, none, "crdt.set", true, none, none, none,
          some (.obj [("path", .str "x"), ("value", .num 5)]), none, none⟩]) []) ∧
    (findFirstDivergence id
      [⟨1, "s", "c", 0, none, "crdt.set", true, none, none, none,
        some (.obj [("path", .str "x"), ("value", .num 1)]), none, none⟩,
       ⟨1, "s", "c", 1, none, "crdt.set", true, none, none, none,
        some (.obj [("path", .str "x"), ("value", .num 5)]), none, none⟩]
      [⟨1, "s", "c", 0, none, "crdt.set", true, none, none, none,
        some (.obj [("path", .str "x"), ("value", .num 2)]), none, none⟩,
       ⟨1, "s", "c", 1, none, "crdt.set", true, none, none, none,
        some (.obj [("path", .str "x"), ("value", .num 5)]), none, none⟩]
      []).1 = ⟨true, none, none, none, none⟩ := by
  refine ⟨by decide, by decide⟩

/-- Witness for the amended C4 at one-event logs diverging at index 1. -/
theorem c4_witness :
    (findFirstDivergence id
      [⟨1, "s", "c", 0, none, "crdt.set", true, none, none, none,
        some (.obj [("path", .str "x"), ("value", .num 1)]), none, none⟩]
      [⟨1, "s", "c", 0, none, "crdt.set", true, none, none, none,
        some (.obj [("path", .str "x"), ("value", .num 2)]), none, none⟩]
      []).1.ok = false ∧
    (findFirstDivergence id
      [⟨1, "s", "c", 0, none, "crdt.set", true, none, none, none,
        some (.obj [("path", .str "x"), ("value", .num 1)]), none, none⟩]
      [⟨1, "s", "c", 0, none, "crdt.set", true, none, none, none,
        some (.obj [("path", .str "x"), ("value", .num 2)]), none, none⟩]
      []).1.firstIndex = some ((1 : Nat) : Int) ∧
    (findFirstDivergence id
      [⟨1, "s", "c", 0, none, "crdt.set", true, none, none, none,
        some (.obj [("path", .str "x"), ("value", .num 1)]), none, none⟩]
      [⟨1, "s", "c", 0, none, "crdt.set", true, none, none, none,
        some (.obj [("path", .str "x"), ("value", .num 2)]), none, none⟩]
      []).2 ≤ 2 * 0 + 8 :=
  c4_amended_locator id (fun _ _ h => h)
    [⟨1, "s", "c", 0, none, "crdt.set", true, none, none, none,
      some (.obj [("path", .str "x"), ("value", .num 1)]), none, none⟩]
    [⟨1, "s", "c", 0, none, "crdt.set", true, none, none, none,
      some (.obj [("path", .str "x"), ("value", .num 2)]), none, none⟩]
    [] 1 0 (by decide) (by decide)
    (by
      intro m hm
      have h0 : m = 0 := by omega
      subst h0
      decide)
    (by
      intro m h1 h2
      simp only [List.length_cons, List.length_nil] at h2
      have h0 : m = 1 := by omega
      subst h0
      decide)
    (by decide)
